import Mathlib

/-!
Shallow embedding of the simulation core of the `frontier` repository
(turn-based card-driven expedition RPG written in Rust), together with
proofs checking the natural-language specification against it.

Conventions of the embedding:
* Rust `i32` is modelled as `Int`, `u32`/`usize` as `Nat`.  None of the
  verified claims depends on 32-bit wrap-around, and the game never
  approaches those magnitudes.
* Rust float scalings `(d as f32 * 1.5) as i32` and `(d as f32 * 0.75) as i32`
  are modelled as exact rational scaling followed by truncation toward zero
  (`Int.tdiv`).  `1.5` and `0.75` are exactly representable in `f32`, so the
  float product is exact (and the model agrees with the code bit-for-bit)
  whenever `|3*d| < 2^24`, which covers every damage value the game produces.
* Mutating methods become functions returning the updated value; a method
  returning a value as well returns a pair.
* The ambient random source `macroquad_toolkit::rng` (an external
  collaborator per the spec) is modelled as an injected stream object `Rng`;
  each call consumes one stream element, and every outcome the real source
  can produce corresponds to some stream.
-/

namespace Frontier

/-- Truncated scaling by 1.5: models Rust `(d as f32 * 1.5) as i32`
(exact for all in-game magnitudes, see file header). -/
def times3div2 (d : Int) : Int := Int.tdiv (3 * d) 2

/-- Truncated scaling by 0.75: models Rust `(d as f32 * 0.75) as i32`. -/
def times3div4 (d : Int) : Int := Int.tdiv (3 * d) 4

/-- `src/kingdom/adventurer.rs`: `enum StatusType`. -/
inductive StatusType where
  | Strength
  | Vulnerable
  | Weak
  | Stun
  | Regen
  | Block
  | Poison
  | Burn
deriving DecidableEq

/-- `StatusType::is_debuff` (`src/kingdom/adventurer.rs`). -/
def StatusType.is_debuff : StatusType → Bool
  | StatusType.Vulnerable => true
  | StatusType.Weak => true
  | StatusType.Stun => true
  | StatusType.Poison => true
  | StatusType.Burn => true
  | _ => false

/-- Rust `{:?}` debug form of a `StatusType` (used in resolver log lines). -/
def StatusType.debugName : StatusType → String
  | StatusType.Strength => "Strength"
  | StatusType.Vulnerable => "Vulnerable"
  | StatusType.Weak => "Weak"
  | StatusType.Stun => "Stun"
  | StatusType.Regen => "Regen"
  | StatusType.Block => "Block"
  | StatusType.Poison => "Poison"
  | StatusType.Burn => "Burn"

/-- `src/kingdom/adventurer.rs`: `struct StatusEffect`. -/
structure StatusEffect where
  effect_type : StatusType
  duration : Int
  value : Int
deriving DecidableEq

/-- `StatusEffect::new`. -/
def StatusEffect.new (effect_type : StatusType) (duration value : Int) : StatusEffect :=
  { effect_type := effect_type, duration := duration, value := value }

/-- `src/combat/unit.rs`: `enum EnemyIntent`. -/
inductive EnemyIntent where
  | Attack (dmg : Int)
  | Block (amt : Int)
  | Buff
  | Debuff
  | Unknown
deriving DecidableEq

/-- `src/combat/unit.rs`: `struct Unit`. -/
structure Unit where
  name : String
  hp : Int
  max_hp : Int
  block : Int
  stress : Int
  is_player : Bool
  image_path : Option String
  base_damage : Int
  intent : EnemyIntent
  statuses : List StatusEffect
deriving DecidableEq

/-- `Unit::new_player`. -/
def Unit.new_player (name : String) (max_hp : Int) : Unit :=
  { name := name, hp := max_hp, max_hp := max_hp, block := 0, stress := 0,
    is_player := true, image_path := none, base_damage := 0,
    intent := EnemyIntent.Unknown, statuses := [] }

/-- `Unit::new_enemy`. -/
def Unit.new_enemy (name : String) (max_hp : Int) (image_path : Option String) : Unit :=
  { name := name, hp := max_hp, max_hp := max_hp, block := 0, stress := 0,
    is_player := false, image_path := image_path, base_damage := 6,
    intent := EnemyIntent.Attack 6, statuses := [] }

/-- `Unit::has_status`. -/
def Unit.has_status (u : Unit) (status_type : StatusType) : Bool :=
  u.statuses.any (fun s => decide (s.effect_type = status_type))

/-- `Unit::take_damage` (`src/combat/unit.rs` lines 133-147): Vulnerable
multiplies the incoming amount by 1.5 (truncating), block absorbs up to its
current value, the remainder reduces hp and is returned. -/
def Unit.take_damage (u : Unit) (amount : Int) : Unit × Int :=
  let final_damage := if u.has_status StatusType.Vulnerable then times3div2 amount else amount
  let blocked := min final_damage u.block
  let remaining := final_damage - blocked
  ({ u with block := u.block - blocked, hp := u.hp - remaining }, remaining)

/-- `Unit::add_block`. -/
def Unit.add_block (u : Unit) (amount : Int) : Unit :=
  { u with block := u.block + amount }

/-- `Unit::add_stress` — note: no upper clamp in the source. -/
def Unit.add_stress (u : Unit) (amount : Int) : Unit :=
  { u with stress := u.stress + amount }

/-- `Unit::reduce_stress` — floors at 0. -/
def Unit.reduce_stress (u : Unit) (amount : Int) : Unit :=
  { u with stress := max (u.stress - amount) 0 }

/-- The list part of `Unit::add_status`: the first entry of the same type is
refreshed (duration to the max, value raised only if the new one is larger);
otherwise the effect is pushed at the end. -/
def addStatusList : List StatusEffect → StatusEffect → List StatusEffect
  | [], e => [e]
  | s :: rest, e =>
    if s.effect_type = e.effect_type then
      { s with duration := max s.duration e.duration,
               value := if e.value > s.value then e.value else s.value } :: rest
    else
      s :: addStatusList rest e

/-- `Unit::add_status` (`src/combat/unit.rs` lines 161-174). -/
def Unit.add_status (u : Unit) (effect : StatusEffect) : Unit :=
  { u with statuses := addStatusList u.statuses effect }

/-- Modelled from the spec: `Unit::heal` is called by the resolver's `Heal`
branch but is absent from `src/combat/unit.rs` (the repo holds divergent
snapshots); the spec describes `Heal(amount)` as "Heal self HP" and the
sibling `Adventurer::heal` clamps at `max_hp`, so we model it the same way. -/
def Unit.heal (u : Unit) (amount : Int) : Unit :=
  { u with hp := min (u.hp + amount) u.max_hp }

/-- Modelled from the spec: `Unit::clear_debuffs` is called by the resolver's
`ClearDebuffs` branch but is absent from `src/combat/unit.rs`; the spec says
"Clear all debuffs from self", so we retain exactly the non-debuff statuses. -/
def Unit.clear_debuffs (u : Unit) : Unit :=
  { u with statuses := u.statuses.filter (fun s => !s.effect_type.is_debuff) }

/-- `src/combat/effects.rs`: `enum CardEffect`. -/
inductive CardEffect where
  | Damage (amount : Int)
  | Block (amount : Int)
  | Stress (amount : Int)
  | SelfStress (amount : Int)
  | ReduceStress (amount : Int)
  | Heal (amount : Int)
  | DrawCards (count : Int)
  | GainEnergy (amount : Int)
  | GainEnergyNextTurn (amount : Int)
  | ClearDebuffs
  | EnemyStress (amount : Int)
  | DamageIfNoBlock (base bonus : Int)
  | DamageIfLowHp (base bonus threshold_percent : Int)
  | DamageIfEnemyActed (base bonus : Int)
  | DamageIfVulnerable (base bonus : Int)
  | ApplyStatus (effect_type : StatusType) (duration value : Int) (target_self : Bool)
  | StressResistance (percent : Int)
  | DisableAttacks
deriving DecidableEq

/-- `src/combat/resolver.rs`: `struct TurnModifiers`. -/
structure TurnModifiers where
  stress_resistance : Int
  attacks_disabled : Bool
  enemy_acted_last_turn : Bool
  energy_next_turn : Int
  cards_to_draw : Int
  energy_to_gain : Int
deriving DecidableEq

/-- `TurnModifiers::default()` (all-zero / false). -/
def TurnModifiers.init : TurnModifiers :=
  { stress_resistance := 0, attacks_disabled := false, enemy_acted_last_turn := false,
    energy_next_turn := 0, cards_to_draw := 0, energy_to_gain := 0 }

/-- `TurnModifiers::reset` — zeroes the per-turn fields, leaving
`enemy_acted_last_turn` and `energy_next_turn` to the combat logic. -/
def TurnModifiers.reset (t : TurnModifiers) : TurnModifiers :=
  { t with stress_resistance := 0, attacks_disabled := false,
           cards_to_draw := 0, energy_to_gain := 0 }

/-- `src/combat/resolver.rs`: `struct CombatResolver`. -/
structure CombatResolver where
  log : List String
  turn_mods : TurnModifiers
deriving DecidableEq

/-- `CombatResolver::new`. -/
def CombatResolver.new : CombatResolver :=
  { log := [], turn_mods := TurnModifiers.init }

/-- `CombatResolver::end_turn`. -/
def CombatResolver.end_turn (r : CombatResolver) (enemy_acted : Bool) : CombatResolver :=
  { r with turn_mods := { r.turn_mods.reset with enemy_acted_last_turn := enemy_acted } }

/-- `CombatResolver::apply_stress_to_player`. -/
def CombatResolver.apply_stress_to_player (r : CombatResolver) (player : Unit) (amount : Int) :
    Unit :=
  let reduced :=
    if r.turn_mods.stress_resistance > 0 then
      let reduction := Int.tdiv (amount * r.turn_mods.stress_resistance) 100
      max (amount - reduction) 0
    else
      amount
  player.add_stress reduced

/-- The attacker's Strength bonus: `if let Some(s) = player.statuses.iter()
.find(|s| s.effect_type == StatusType::Strength) { dmg += s.value }`. -/
def strengthBonus (player : Unit) : Int :=
  match player.statuses.find? (fun s => decide (s.effect_type = StatusType.Strength)) with
  | some s => s.value
  | none => 0

/-- `CombatResolver::resolve` (`src/combat/resolver.rs` lines 74-180): applies
one `CardEffect` to the (player, target) pair, returning the updated resolver
(log and turn modifiers) and the updated units. -/
def CombatResolver.resolve (r : CombatResolver) (effect : CardEffect)
    (player target : Unit) : CombatResolver × Unit × Unit :=
  match effect with
  | CardEffect.Damage amount =>
    let dmg := amount + strengthBonus player
    let dmg := if player.has_status StatusType.Weak then times3div4 dmg else dmg
    let dmg := if target.has_status StatusType.Vulnerable then times3div2 dmg else dmg
    let target1 := (target.take_damage dmg).1
    ({ r with log := r.log ++ [target1.name ++ " takes " ++ toString dmg ++ " damage"] },
     player, target1)
  | CardEffect.Block amount =>
    let player1 := player.add_block amount
    ({ r with log := r.log ++ [player1.name ++ " gains " ++ toString amount ++ " block"] },
     player1, target)
  | CardEffect.Stress amount =>
    let target1 := target.add_stress amount
    ({ r with log := r.log ++ [target1.name ++ " gains " ++ toString amount ++ " stress"] },
     player, target1)
  | CardEffect.SelfStress amount =>
    let player1 := player.add_stress amount
    ({ r with log := r.log ++ [player1.name ++ " gains " ++ toString amount ++ " stress (self)"] },
     player1, target)
  | CardEffect.ReduceStress amount =>
    let player1 := player.reduce_stress amount
    ({ r with log := r.log ++ [player1.name ++ " reduces stress by " ++ toString amount] },
     player1, target)
  | CardEffect.Heal amount =>
    let player1 := player.heal amount
    ({ r with log := r.log ++ [player1.name ++ " heals " ++ toString amount ++ " HP"] },
     player1, target)
  | CardEffect.DrawCards count =>
    ({ r with
        turn_mods := { r.turn_mods with cards_to_draw := r.turn_mods.cards_to_draw + count },
        log := r.log ++ [player.name ++ " will draw " ++ toString count ++ " card(s)"] },
     player, target)
  | CardEffect.GainEnergy amount =>
    ({ r with
        turn_mods := { r.turn_mods with energy_to_gain := r.turn_mods.energy_to_gain + amount },
        log := r.log ++ [player.name ++ " will gain " ++ toString amount ++ " energy"] },
     player, target)
  | CardEffect.GainEnergyNextTurn amount =>
    ({ r with
        turn_mods := { r.turn_mods with energy_next_turn := r.turn_mods.energy_next_turn + amount },
        log := r.log ++ [player.name ++ " will gain " ++ toString amount ++ " energy next turn"] },
     player, target)
  | CardEffect.ClearDebuffs =>
    let player1 := player.clear_debuffs
    ({ r with log := r.log ++ [player1.name ++ " clears all debuffs"] },
     player1, target)
  | CardEffect.EnemyStress amount =>
    ({ r with log := r.log ++ [target.name ++ " gains " ++ toString amount ++ " stress"] },
     player, target)
  | CardEffect.DamageIfNoBlock base bonus =>
    let total := if target.block = 0 then base + bonus else base
    let target1 := (target.take_damage total).1
    ({ r with log := r.log ++ [target1.name ++ " takes " ++ toString total ++ " damage"] },
     player, target1)
  | CardEffect.DamageIfLowHp base bonus threshold_percent =>
    let threshold := Int.tdiv (player.max_hp * threshold_percent) 100
    let total := if player.hp < threshold then base + bonus else base
    let target1 := (target.take_damage total).1
    ({ r with log := r.log ++ [target1.name ++ " takes " ++ toString total ++ " damage"] },
     player, target1)
  | CardEffect.DamageIfEnemyActed base bonus =>
    let total := if r.turn_mods.enemy_acted_last_turn then base + bonus else base
    let dmg := total + strengthBonus player
    let dmg := if player.has_status StatusType.Weak then times3div4 dmg else dmg
    let target1 := (target.take_damage dmg).1
    ({ r with log := r.log ++ [target1.name ++ " takes " ++ toString dmg
        ++ " damage (enemy acted: " ++ toString r.turn_mods.enemy_acted_last_turn ++ ")"] },
     player, target1)
  | CardEffect.DamageIfVulnerable base bonus =>
    let is_vulnerable := target.has_status StatusType.Vulnerable
    let total := if is_vulnerable then base + bonus else base
    let target1 := (target.take_damage total).1
    ({ r with log := r.log ++ [target1.name ++ " takes " ++ toString total
        ++ " damage (vulnerable: " ++ toString is_vulnerable ++ ")"] },
     player, target1)
  | CardEffect.ApplyStatus effect_type duration value target_self =>
    let status := StatusEffect.new effect_type duration value
    if target_self then
      let who := player.add_status status
      ({ r with log := r.log ++ [who.name ++ " gains " ++ effect_type.debugName
          ++ " for " ++ toString duration ++ " turns"] },
       who, target)
    else
      let who := target.add_status status
      ({ r with log := r.log ++ [who.name ++ " gains " ++ effect_type.debugName
          ++ " for " ++ toString duration ++ " turns"] },
       player, who)
  | CardEffect.StressResistance percent =>
    ({ r with
        turn_mods := { r.turn_mods with
          stress_resistance := max r.turn_mods.stress_resistance percent },
        log := r.log ++ [player.name ++ " gains " ++ toString percent
          ++ "% stress resistance this turn"] },
     player, target)
  | CardEffect.DisableAttacks =>
    ({ r with
        turn_mods := { r.turn_mods with attacks_disabled := true },
        log := r.log ++ [player.name ++ " cannot play attacks this turn"] },
     player, target)

/-! ### Kingdom meta-state (`src/kingdom/`) -/

/-- `src/kingdom/adventurer.rs`: `enum AdventurerClass`. -/
inductive AdventurerClass where
  | Soldier
  | Scout
  | Healer
  | Mystic
deriving DecidableEq

/-- `src/kingdom/adventurer.rs`: `enum Gender`. -/
inductive Gender where
  | Male
  | Female
deriving DecidableEq

/-- `src/kingdom/adventurer.rs`: `struct Trait`. -/
structure Trait where
  id : String
  name : String
  description : String
  is_positive : Bool
deriving DecidableEq

/-- `src/kingdom/adventurer.rs`: `struct Injury`. -/
structure Injury where
  id : String
  name : String
  description : String
  severity : Int
  healing_days : Int
deriving DecidableEq

/-- `src/kingdom/adventurer.rs`: `enum TraumaType`. -/
inductive TraumaType where
  | Fearful
  | Paranoid
  | Broken
  | Hopeless
deriving DecidableEq

/-- `src/kingdom/adventurer.rs`: `struct Trauma`. -/
structure Trauma where
  trauma_type : TraumaType
  severity : Int
deriving DecidableEq

/-- `src/kingdom/adventurer.rs`: `struct Adventurer`. -/
structure Adventurer where
  id : String
  name : String
  «class» : AdventurerClass
  gender : Gender
  hp : Int
  max_hp : Int
  stress : Int
  level : Int
  xp : Int
  traits : List Trait
  injuries : List Injury
  traumas : List Trauma
  statuses : List StatusEffect
  deck_additions : List String
  available : Bool
  missions_completed : Nat
  kills : Nat
  image_path : Option String
deriving DecidableEq

/-- `src/kingdom/buildings.rs`: `struct Building`. -/
structure Building where
  id : String
  name : String
  description : String
  built : Bool
  level : Int
  cost_gold : Int
  cost_supplies : Int
deriving DecidableEq

/-- `src/kingdom/stats.rs`: `struct KingdomStats`. -/
structure KingdomStats where
  gold : Int
  security : Int
  morale : Int
  supplies : Int
  knowledge : Int
  influence : Int
deriving DecidableEq

/-- `src/kingdom/stats.rs`: `struct KingdomState`. -/
structure KingdomState where
  stats : KingdomStats
  day : Nat
  buildings : List Building
deriving DecidableEq

/-- `src/kingdom/roster.rs`: `struct Roster`. -/
structure Roster where
  adventurers : List Adventurer
  graveyard : List Adventurer
deriving DecidableEq

/-- `src/kingdom/party.rs`: `struct PartyMemberState` — the snapshot of a
party member carried through missions and combat. -/
structure PartyMemberState where
  id : String
  name : String
  hp : Int
  max_hp : Int
  stress : Int
  image_path : Option String
  class_name : String
deriving DecidableEq

/-! ### Save system (`src/save/mod.rs`) and `Game::load_game` (`src/game.rs`) -/

/-- `const SAVE_VERSION: u32 = 1` (`src/save/mod.rs`). -/
def SAVE_VERSION : Nat := 1

/-- `src/save/mod.rs`: `struct SaveData`. -/
structure SaveData where
  version : Nat
  kingdom : KingdomState
  roster : Roster
  unlocked_cards : List String
  unlocked_buildings : List String
  regions_explored : List String
  total_missions : Nat
  total_deaths : Nat
deriving DecidableEq

/-- `SaveData::load` (`src/save/mod.rs` lines 62-74).  The underlying
`load_json` file read is the external persistence collaborator (out of scope
per the spec), so its outcome is the argument `loaded`; the version gate on a
successfully parsed save is the logic under verification. -/
def SaveData.load (loaded : Except String SaveData) : Except String SaveData :=
  match loaded with
  | Except.error e => Except.error e
  | Except.ok save =>
    if SAVE_VERSION < save.version then
      Except.error ("Save file version " ++ toString save.version
        ++ " is newer than supported version " ++ toString SAVE_VERSION)
    else
      Except.ok save

/-- The persistent fields of `struct Game` (`src/game.rs`).  `Game` also owns
the active `GameState` and a texture cache; `Game::load_game` neither reads
nor writes those, so they are not part of this embedding.  The `f32` message
timer is modelled as an exact rational. -/
structure Game where
  kingdom : KingdomState
  roster : Roster
  message : Option (String × ℚ)

/-- `Game::load_game` (`src/game.rs` lines 234-245): on success the loaded
kingdom and roster replace the in-memory ones; on failure only the UI message
is set. -/
def Game.load_game (g : Game) (loaded : Except String SaveData) : Game :=
  match SaveData.load loaded with
  | Except.ok save =>
    { g with kingdom := save.kingdom, roster := save.roster,
             message := some ("Game Loaded!", 2) }
  | Except.error e =>
    { g with message := some ("Load failed: " ++ e, 3) }

/-! ### Mission map model (`src/missions/mission.rs`) -/

/-- `src/kingdom/unlock.rs`: `enum UnlockRequirement`. -/
inductive UnlockRequirement where
  | NoRequirement
  | Building (building : String)
  | Knowledge (amount : Int)
  | MissionComplete (mission_id : String)
deriving DecidableEq

/-- `src/missions/mission.rs`: `enum MissionType`. -/
inductive MissionType where
  | Scout
  | Suppress
  | Secure
  | Investigate
deriving DecidableEq

/-- `src/missions/mission.rs`: `enum NodeType`. -/
inductive NodeType where
  | Combat
  | Event
  | Rest
  | Boss
deriving DecidableEq

/-- `src/missions/mission.rs`: `struct MapNode`. -/
structure MapNode where
  id : Nat
  node_type : NodeType
  connections : List Nat
  layer : Nat
  position : Nat
deriving DecidableEq

/-- `src/missions/mission.rs`: `struct Mission`. -/
structure Mission where
  id : String
  name : String
  description : String
  mission_type : MissionType
  region_id : String
  length : Nat
  difficulty : Int
  reward_supplies : Int
  reward_knowledge : Int
  reward_influence : Int
  base_stress : Int
  unlock_requirement : UnlockRequirement
deriving DecidableEq

/-- `Mission::first_mission()`. -/
def Mission.first_mission : Mission :=
  { id := "scout_dark_woods", name := "Scout the Dark Woods",
    description := "Map the forest edge. Avoid direct confrontation if possible.",
    mission_type := MissionType.Scout, region_id := "dark_woods",
    length := 5, difficulty := 1, reward_supplies := 10, reward_knowledge := 15,
    reward_influence := 0, base_stress := 8,
    unlock_requirement := UnlockRequirement.NoRequirement }

/-- `Mission::suppress_beasts()`. -/
def Mission.suppress_beasts : Mission :=
  { id := "suppress_beasts", name := "Suppress Forest Beasts",
    description := "Clear the creatures blocking the main road.",
    mission_type := MissionType.Suppress, region_id := "dark_woods",
    length := 6, difficulty := 2, reward_supplies := 20, reward_knowledge := 5,
    reward_influence := 10, base_stress := 15,
    unlock_requirement := UnlockRequirement.NoRequirement }

/-- Modelled from the spec: the ambient random source
`macroquad_toolkit::rng` is an external collaborator ("an injected, seedable
random-number source").  `floats` models successive `rng::rand()` /
`rng::chance(p)` draws as rationals in `[0,1)`; `ints` models successive
`rng::gen_range(lo, hi)` draws, mapped into `[lo, hi)` by offset-and-modulus
so that exactly the legal outcomes are reachable. -/
structure Rng where
  floats : Nat → ℚ
  ints : Nat → Nat

/-- Position of the generator in its two streams. -/
structure RngState where
  fidx : Nat
  iidx : Nat
deriving DecidableEq

/-- One `rng::rand()` draw. -/
def Rng.randF (rng : Rng) (s : RngState) : ℚ × RngState :=
  (rng.floats s.fidx, { s with fidx := s.fidx + 1 })

/-- One `rng::gen_range(lo, hi)` draw (result in `[lo, hi)` when `lo < hi`). -/
def Rng.genRange (rng : Rng) (lo hi : Nat) (s : RngState) : Nat × RngState :=
  (lo + rng.ints s.iidx % (hi - lo), { s with iidx := s.iidx + 1 })

/-- The per-mission-type combat probability table in
`Mission::generate_branching_map`. -/
def combatChance : MissionType → ℚ
  | MissionType.Scout => 1/4
  | MissionType.Suppress => 3/5
  | MissionType.Secure => 2/5
  | MissionType.Investigate => 1/5

/-- The node type of a mission's last layer: `Boss` for `Suppress` missions,
`Event` otherwise. -/
def finalNodeType (m : Mission) : NodeType :=
  match m.mission_type with
  | MissionType.Suppress => NodeType.Boss
  | _ => NodeType.Event

/-- Node type chosen for position `(layer, pos)` in
`Mission::generate_branching_map`: layer 0 is always `Event`; the last layer
is `Boss` for `Suppress` missions and `Event` otherwise; middle layers roll
against the combat chance, then (only on layers divisible by 3) a 0.3 chance
of `Rest`, defaulting to `Event`. -/
def nodeTypeFor (rng : Rng) (m : Mission) (num_layers layer : Nat) (s : RngState) :
    NodeType × RngState :=
  if layer = 0 then
    (NodeType.Event, s)
  else if layer = num_layers - 1 then
    (finalNodeType m, s)
  else
    let rs := rng.randF s
    if rs.1 < combatChance m.mission_type then
      (NodeType.Combat, rs.2)
    else if layer % 3 = 0 then
      let cs := rng.randF rs.2
      if cs.1 < 3/10 then (NodeType.Rest, cs.2) else (NodeType.Event, cs.2)
    else
      (NodeType.Event, rs.2)

/-- The inner `for pos in 0..nodes_in_layer` loop of the first pass: creates
`count` nodes of the current layer with consecutive ids starting at `nid` and
positions starting at `pos`, connections empty. -/
def mkNodes (rng : Rng) (m : Mission) (num_layers layer : Nat) :
    Nat → Nat → Nat → RngState → List MapNode × RngState
  | 0, _, _, s => ([], s)
  | count + 1, pos, nid, s =>
    let nts := nodeTypeFor rng m num_layers layer s
    let node : MapNode :=
      { id := nid, node_type := nts.1, connections := [], layer := layer, position := pos }
    let rest := mkNodes rng m num_layers layer count (pos + 1) (nid + 1) nts.2
    (node :: rest.1, rest.2)

/-- The first pass of `Mission::generate_branching_map` (`for layer in
0..num_layers`): builds the flat node list and, per layer, the list of node
ids of that layer (`layer_nodes`).  `rem` counts the layers still to build,
`layer` is the current layer index, `nid` the next fresh node id. -/
def buildLayers (rng : Rng) (m : Mission) (num_layers : Nat) :
    Nat → Nat → Nat → RngState → List MapNode × List (List Nat) × RngState
  | 0, _, _, s => ([], [], s)
  | rem + 1, layer, nid, s =>
    let ns1 :=
      if layer = 0 ∨ layer = num_layers - 1 then ((1 : Nat), s)
      else
        let max_branches := if 6 ≤ m.length then 3 else 2
        rng.genRange 1 (max_branches + 1) s
    let mk := mkNodes rng m num_layers layer ns1.1 0 nid ns1.2
    let ids := (List.range ns1.1).map (fun j => nid + j)
    let rest := buildLayers rng m num_layers rem (layer + 1) (nid + ns1.1) mk.2
    (mk.1 ++ rest.1, ids :: rest.2.1, rest.2.2)

/-- In-place update of the node at index `i` (the Rust code indexes the flat
`nodes` vector by node id, which equals the index). -/
def updateAt : List MapNode → Nat → (MapNode → MapNode) → List MapNode
  | [], _, _ => []
  | x :: xs, 0, f => f x :: xs
  | x :: xs, n + 1, f => x :: updateAt xs n f

/-- `nodes[node_idx].connections.push(c)`. -/
def pushConn (nodes : List MapNode) (i c : Nat) : List MapNode :=
  updateAt nodes i (fun nd => { nd with connections := nd.connections ++ [c] })

/-- Connections of the node at index `i` (empty when out of range). -/
def connsAt (nodes : List MapNode) (i : Nat) : List Nat :=
  match nodes.get? i with
  | some nd => nd.connections
  | none => []

/-- The `for _ in 0..num_connections` picking loop: while picks remain and
`available` is non-empty, draw an index into `available`, push the picked id
onto node `i`'s connections and remove it from `available`. -/
def pickConns (rng : Rng) (i : Nat) :
    Nat → List Nat → List MapNode → RngState → List MapNode × RngState
  | 0, _, nodes, s => (nodes, s)
  | k + 1, avail, nodes, s =>
    if avail.isEmpty then (nodes, s)
    else
      let ps := rng.genRange 0 avail.length s
      let c := avail.getD ps.1 0
      pickConns rng i k (avail.eraseIdx ps.1) (pushConn nodes i c) ps.2

/-- The `for &node_idx in current_layer` loop of the connection pass: each
node of the current layer picks 1 or 2 targets in the next layer (exactly 1
when the next layer has a single node). -/
def connectFrom (rng : Rng) (next : List Nat) :
    List Nat → List MapNode → RngState → List MapNode × RngState
  | [], nodes, s => (nodes, s)
  | idx :: rest, nodes, s =>
    let ks :=
      if next.length = 1 then ((1 : Nat), s)
      else rng.genRange 1 (min 2 next.length + 1) s
    let picked := pickConns rng idx ks.1 next nodes ks.2
    connectFrom rng next rest picked.1 picked.2

/-- The repair pass (`for &next_node in next_layer`): any next-layer node with
no incoming connection receives one from a random current-layer node. -/
def repairLayer (rng : Rng) (cur : List Nat) :
    List Nat → List MapNode → RngState → List MapNode × RngState
  | [], nodes, s => (nodes, s)
  | nn :: rest, nodes, s =>
    let has_incoming := cur.any (fun n => (connsAt nodes n).contains nn)
    if has_incoming ∨ cur.isEmpty then
      repairLayer rng cur rest nodes s
    else
      let js := rng.genRange 0 cur.length s
      let src := cur.getD js.1 0
      repairLayer rng cur rest (pushConn nodes src nn) js.2

/-- The second pass (`for layer in 0..num_layers.saturating_sub(1)`): for each
adjacent layer pair run the connection pass then the repair pass. -/
def connectLayers (rng : Rng) :
    List (List Nat) → List MapNode → RngState → List MapNode × RngState
  | [], nodes, s => (nodes, s)
  | [_], nodes, s => (nodes, s)
  | cur :: next :: rest, nodes, s =>
    let a := connectFrom rng next cur nodes s
    let b := repairLayer rng cur next a.1 a.2
    connectLayers rng (next :: rest) b.1 b.2

/-- `Mission::generate_branching_map` (`src/missions/mission.rs` lines
181-285) against the injected random source `rng`. -/
def Mission.generate_branching_map (m : Mission) (rng : Rng) : List MapNode :=
  let bl := buildLayers rng m m.length m.length 0 0 ⟨0, 0⟩
  (connectLayers rng bl.2.1 bl.1 bl.2.2).1

/-- The layered-graph invariants claimed for a generated branching map:
exactly one entry node in layer 0, exactly one terminal node in the last layer
(typed by the mission, with no outgoing connections), every node outside the
last layer has at least one outgoing connection and all of its connections go
into the next layer, and every node outside layer 0 has at least one incoming
connection from the previous layer. -/
def branchingMapInvariants (m : Mission) (nodes : List MapNode) : Prop :=
  (nodes.filter (fun nd => nd.layer = 0)).length = 1 ∧
  (nodes.filter (fun nd => nd.layer = m.length - 1)).length = 1 ∧
  (∀ nd ∈ nodes, nd.layer = m.length - 1 →
    nd.node_type
        = (if m.mission_type = MissionType.Suppress then NodeType.Boss else NodeType.Event) ∧
    nd.connections = []) ∧
  (∀ nd ∈ nodes, nd.layer ≠ m.length - 1 →
    nd.connections ≠ [] ∧
    ∀ c ∈ nd.connections, ∃ nd2 ∈ nodes, nd2.id = c ∧ nd2.layer = nd.layer + 1) ∧
  (∀ nd ∈ nodes, nd.layer ≠ 0 →
    ∃ nd2 ∈ nodes, nd2.layer + 1 = nd.layer ∧ nd.id ∈ nd2.connections)

/-- The connection-independent data of a map node (proof device: the second
pass only ever appends to `connections`). -/
def skel (nd : MapNode) : Nat × NodeType × Nat × Nat :=
  (nd.id, nd.node_type, nd.layer, nd.position)

/-- The skeletons of all nodes of a map. -/
def skelsOf (nodes : List MapNode) : List (Nat × NodeType × Nat × Nat) :=
  nodes.map skel

/-- Index-disjointness of the per-layer id lists produced by the first pass. -/
def LayersDisjoint (ls : List (List Nat)) : Prop :=
  ∀ i j li lj, i ≠ j → ls.get? i = some li → ls.get? j = some lj → ∀ x ∈ li, x ∉ lj

/-! ### Rest node processing (`src/state/mission.rs`) -/

/-- The `NodeType::Rest` arm of `MissionState::process_current_node`
(`src/state/mission.rs` lines 155-162): every party member gains
`(max_hp as f32 * 0.1) as i32` hp clamped at `max_hp` (the truncation is
exact integer division by 10 for in-game hp ranges) and loses 5 stress
floored at 0.  The loop runs over all of `self.party_members`, in place. -/
def processRestNode (party_members : List PartyMemberState) : List PartyMemberState :=
  party_members.map (fun member =>
    let heal := Int.tdiv member.max_hp 10
    { member with hp := min (member.hp + heal) member.max_hp,
                  stress := max (member.stress - 5) 0 })

/-! ### Concrete inputs used by counterexamples and witnesses -/

/-- The effect-type list of a unit's statuses. -/
def statusTypes (u : Unit) : List StatusType := u.statuses.map (fun s => s.effect_type)

/-- Attacker of the spec's damage-pipeline example: Strength(value=3) and Weak. -/
def vulnAttacker : Unit :=
  { Unit.new_player "Attacker" 30 with
    statuses := [StatusEffect.new StatusType.Strength 2 3, StatusEffect.new StatusType.Weak 2 0] }

/-- Target of the spec's damage-pipeline example: Vulnerable, block = 2, hp = 30. -/
def vulnTarget : Unit :=
  { Unit.new_enemy "Target" 30 none with
    block := 2, statuses := [StatusEffect.new StatusType.Vulnerable 2 0] }

/-- Resolution of `Damage(10)` in the spec's damage-pipeline example. -/
def vulnDamageResult : CombatResolver × Unit × Unit :=
  CombatResolver.new.resolve (CardEffect.Damage 10) vulnAttacker vulnTarget

/-- An attacker holding Strength(value=3) only. -/
def strAttacker : Unit :=
  { Unit.new_player "Attacker" 30 with statuses := [StatusEffect.new StatusType.Strength 2 3] }

/-- A fresh enemy: block = 0, hp = 30, no statuses. -/
def noBlockTarget : Unit := Unit.new_enemy "Target" 30 none

/-- A unit already carrying a Strength status (for the stacking witness). -/
def strUnit : Unit :=
  { Unit.new_player "Holder" 20 with statuses := [StatusEffect.new StatusType.Strength 2 3] }

/-- A re-applied Strength status with shorter duration but larger value. -/
def strRefresh : StatusEffect := StatusEffect.new StatusType.Strength 1 5

/-- The entry `strUnit` already holds for Strength. -/
def strOld : StatusEffect := StatusEffect.new StatusType.Strength 2 3

/-- A party member downed to 0 hp (not living). -/
def fallenMember : PartyMemberState :=
  { id := "m1", name := "Garron", hp := 0, max_hp := 20, stress := 10,
    image_path := none, class_name := "Soldier" }

/-- A small concrete kingdom state. -/
def kingdomW : KingdomState :=
  { stats := { gold := 100, security := 30, morale := 50, supplies := 50,
               knowledge := 10, influence := 20 },
    day := 1, buildings := [] }

/-- An empty concrete roster. -/
def rosterW : Roster := { adventurers := [], graveyard := [] }

/-- A save stamped with version 2, newer than `SAVE_VERSION = 1`. -/
def saveW : SaveData :=
  { version := 2, kingdom := kingdomW, roster := rosterW, unlocked_cards := [],
    unlocked_buildings := [], regions_explored := [], total_missions := 0,
    total_deaths := 0 }

/-- A concrete in-memory game before a load attempt. -/
def gameW : Game := { kingdom := kingdomW, roster := rosterW, message := none }

/-- A fully deterministic random source (all draws zero). -/
def rngZero : Rng := { floats := fun _ => 0, ints := fun _ => 0 }

/-!
## Theorems

One theorem per claim of the specification audit, with shared helper lemmas.
-/

/-- C3 helper: the post-Vulnerable damage amount fed into block absorption. -/
theorem take_damage_unfold (u : Unit) (n : Int) :
    u.take_damage n =
      (let fd := if u.has_status StatusType.Vulnerable then times3div2 n else n
       ({ u with block := u.block - min fd u.block, hp := u.hp - (fd - min fd u.block) },
        fd - min fd u.block)) := rfl

/-- C3: for every Unit with `block = b`, `hp = h` and every amount `n`,
`take_damage n` leaves `block = max 0 (b - n')`, `hp = h - max 0 (n' - b)` and
returns `max 0 (n' - b)`, where `n'` is `n` scaled by 1.5 (truncating) exactly
when the unit has Vulnerable. -/
theorem take_damage_accounting (u : Unit) (n : Int) :
    (u.take_damage n).1.block
        = max 0 (u.block - (if u.has_status StatusType.Vulnerable then times3div2 n else n)) ∧
    (u.take_damage n).1.hp
        = u.hp - max 0 ((if u.has_status StatusType.Vulnerable then times3div2 n else n) - u.block) ∧
    (u.take_damage n).2
        = max 0 ((if u.has_status StatusType.Vulnerable then times3div2 n else n) - u.block) := by
  rw [take_damage_unfold]
  refine ⟨?_, ?_, ?_⟩ <;> dsimp only <;> split <;> omega

/-- C1 counterexample: in the spec's damage-pipeline example (attacker
Strength 3 + Weak, `Damage(10)`, target Vulnerable with block 2 and hp 30) the
code does NOT leave the target at hp 30 - 11: the resolver multiplies by 1.5
and `take_damage` multiplies by 1.5 again. -/
theorem vulnerable_single_application_refuted :
    ¬ (vulnDamageResult.2.2.hp = 30 - 11) := by decide

/-- C1 amended: the Vulnerable multiplier is applied twice — the resolver's
`Damage` branch computes (10+3) ×0.75 = 9, ×1.5 = 13 (visible in the log
line), then `take_damage` scales 13 ×1.5 = 19, so block 2 absorbs 2, hp drops
by 17 and `take_damage` returns 17. -/
theorem vulnerable_double_application :
    vulnDamageResult.2.2.block = 0 ∧
    vulnDamageResult.2.2.hp = 30 - 17 ∧
    vulnDamageResult.1.log = ["Target takes 13 damage"] ∧
    (vulnTarget.take_damage 13).2 = 17 := by decide

/-- C2 counterexample: `DamageIfNoBlock{5,5}` against a blockless target with
an attacker holding Strength(3) does not deal 10+3: the conditional branch
skips the Strength/Weak pipeline, so hp ends at 30-10, not 30-13. -/
theorem conditional_damage_strength_refuted :
    ¬ ((CombatResolver.new.resolve (CardEffect.DamageIfNoBlock 5 5)
        strAttacker noBlockTarget).2.2.hp = 30 - 13) := by decide

/-- C2 amended: of the conditional damage variants only `DamageIfEnemyActed`
adds Strength and applies Weak; `DamageIfNoBlock`, `DamageIfLowHp` and
`DamageIfVulnerable` hand the predicate-selected base amount directly to
`take_damage` (which still applies the defender's Vulnerable multiplier). -/
theorem conditional_damage_pipeline (r : CombatResolver) (p t : Unit) (base bonus tp : Int) :
    ((r.resolve (CardEffect.DamageIfNoBlock base bonus) p t).2.2
        = (t.take_damage (if t.block = 0 then base + bonus else base)).1) ∧
    ((r.resolve (CardEffect.DamageIfLowHp base bonus tp) p t).2.2
        = (t.take_damage
            (if p.hp < Int.tdiv (p.max_hp * tp) 100 then base + bonus else base)).1) ∧
    ((r.resolve (CardEffect.DamageIfVulnerable base bonus) p t).2.2
        = (t.take_damage
            (if t.has_status StatusType.Vulnerable then base + bonus else base)).1) ∧
    ((r.resolve (CardEffect.DamageIfEnemyActed base bonus) p t).2.2
        = (t.take_damage
            (let total := if r.turn_mods.enemy_acted_last_turn then base + bonus else base
             let dmg := total + strengthBonus p
             if p.has_status StatusType.Weak then times3div4 dmg else dmg)).1) ∧
    ((r.resolve (CardEffect.DamageIfNoBlock base bonus) p t).2.1 = p) :=
  ⟨rfl, rfl, rfl, rfl, rfl⟩

/-- C7: `StressResistance` combines by max, never by sum: in general the
resulting `turn_mods.stress_resistance` after playing `a` then `b` is
`max (max previous a) b`, and concretely 30 then 50 from a fresh resolver
leaves 50. -/
theorem stress_resistance_max (r : CombatResolver) (p t q w : Unit) (a b : Int) :
    (((r.resolve (CardEffect.StressResistance a) p t).1.resolve
        (CardEffect.StressResistance b) q w).1.turn_mods.stress_resistance
      = max (max r.turn_mods.stress_resistance a) b) ∧
    (((CombatResolver.new.resolve (CardEffect.StressResistance 30) p t).1.resolve
        (CardEffect.StressResistance 50) q w).1.turn_mods.stress_resistance = 50) :=
  ⟨rfl, rfl⟩

/-- C9 counterexample: `add_stress` has no upper clamp — two 60-stress hits on
a fresh player unit leave stress at 120, above the claimed 0-100 range. -/
theorem stress_exceeds_cap :
    ¬ (((Unit.new_player "Rell" 30).add_stress 60).add_stress 60).stress ≤ 100 := by decide

/-- C9 amended: `reduce_stress` floors at 0 and resisted stress application
never decreases stress for nonnegative amounts, but `add_stress` adds the
full amount with no cap at 100, so stress can exceed 100. -/
theorem stress_bounds_amended :
    (∀ (u : Unit) (n : Int), 0 ≤ (u.reduce_stress n).stress) ∧
    (∀ (u : Unit) (n : Int), (u.add_stress n).stress = u.stress + n) ∧
    (∀ (r : CombatResolver) (p : Unit) (n : Int), 0 ≤ n →
      p.stress ≤ (r.apply_stress_to_player p n).stress) := by
  refine ⟨fun u n => ?_, fun u n => rfl, fun r p n hn => ?_⟩
  · exact le_max_right _ _
  · unfold CombatResolver.apply_stress_to_player Unit.add_stress
    dsimp only
    split
    · have h0 : (0:Int) ≤ max (n - Int.tdiv (n * r.turn_mods.stress_resistance) 100) 0 :=
        le_max_right _ _
      omega
    · omega

/-- Witness for the hypothesis of `stress_bounds_amended`: a concrete
nonnegative stress application through the resolver. -/
theorem stress_bounds_witness :
    (0:Int) ≤ 5 ∧
    (Unit.new_player "Rell" 30).stress
      ≤ (CombatResolver.new.apply_stress_to_player (Unit.new_player "Rell" 30) 5).stress :=
  ⟨by decide,
   stress_bounds_amended.2.2 CombatResolver.new (Unit.new_player "Rell" 30) 5 (by decide)⟩

/-- C10: resolving `EnemyStress(amount)` mutates neither unit and no
`turn_mods` field; its only observable effect is one appended log line. -/
theorem enemy_stress_frame (r : CombatResolver) (p t : Unit) (amount : Int) :
    (r.resolve (CardEffect.EnemyStress amount) p t).2.1 = p ∧
    (r.resolve (CardEffect.EnemyStress amount) p t).2.2 = t ∧
    (r.resolve (CardEffect.EnemyStress amount) p t).1.turn_mods = r.turn_mods ∧
    (r.resolve (CardEffect.EnemyStress amount) p t).1.log
      = r.log ++ [t.name ++ " gains " ++ toString amount ++ " stress"] :=
  ⟨rfl, rfl, rfl, rfl⟩

/-- C5: a save whose version exceeds `SAVE_VERSION` is rejected with an
error, and any failed load leaves the game's kingdom and roster untouched. -/
theorem save_version_gate :
    (∀ save : SaveData, SAVE_VERSION < save.version →
      SaveData.load (Except.ok save)
        = Except.error ("Save file version " ++ toString save.version
            ++ " is newer than supported version " ++ toString SAVE_VERSION)) ∧
    (∀ (g : Game) (loaded : Except String SaveData) (e : String),
      SaveData.load loaded = Except.error e →
      (g.load_game loaded).kingdom = g.kingdom ∧ (g.load_game loaded).roster = g.roster) := by
  constructor
  · intro save h
    simp [SaveData.load, h]
  · intro g loaded e h
    simp [Game.load_game, h]

/-- Witness for `save_version_gate`: the version-2 save `saveW` is rejected
and the in-memory `gameW` keeps its kingdom and roster. -/
theorem save_version_gate_witness :
    SAVE_VERSION < saveW.version ∧
    (SaveData.load (Except.ok saveW)
      = Except.error ("Save file version " ++ toString saveW.version
          ++ " is newer than supported version " ++ toString SAVE_VERSION)) ∧
    ((gameW.load_game (Except.ok saveW)).kingdom = gameW.kingdom ∧
     (gameW.load_game (Except.ok saveW)).roster = gameW.roster) :=
  ⟨by decide,
   save_version_gate.1 saveW (by decide),
   save_version_gate.2 gameW (Except.ok saveW) _ (save_version_gate.1 saveW (by decide))⟩

/-- C8 counterexample: a Rest node also heals members at 0 hp — the claim
that only living members (hp > 0) are touched fails on `fallenMember`. -/
theorem rest_heals_fallen : ¬ (processRestNode [fallenMember] = [fallenMember]) := by decide

/-- C8 amended: a Rest node heals every party member, living or not: each
gains `max_hp / 10` hp (clamped at `max_hp`) and loses 5 stress (floored at
0); all other fields are unchanged and the party size is preserved. -/
theorem rest_heals_all (party : List PartyMemberState) (j : Nat) (m : PartyMemberState)
    (h : party.get? j = some m) :
    (processRestNode party).length = party.length ∧
    (processRestNode party).get? j
      = some { m with hp := min (m.hp + Int.tdiv m.max_hp 10) m.max_hp,
                      stress := max (m.stress - 5) 0 } := by
  have h' : party[j]? = some m := by simpa [List.get?_eq_getElem?] using h
  constructor
  · simp [processRestNode]
  · simp [processRestNode, List.get?_eq_getElem?, List.getElem?_map, h']

/-- Witness for `rest_heals_all` at the concrete one-member party. -/
theorem rest_heals_all_witness :
    [fallenMember].get? 0 = some fallenMember ∧
    ((processRestNode [fallenMember]).length = [fallenMember].length ∧
     (processRestNode [fallenMember]).get? 0
       = some { fallenMember with
                  hp := min (fallenMember.hp + Int.tdiv fallenMember.max_hp 10)
                            fallenMember.max_hp,
                  stress := max (fallenMember.stress - 5) 0 }) :=
  ⟨rfl, rest_heals_all [fallenMember] 0 fallenMember rfl⟩

/-- The effect-type list after `addStatusList`: unchanged when the type was
already present, otherwise extended by the new type at the end. -/
theorem addStatusList_map_type (l : List StatusEffect) (e : StatusEffect) :
    (addStatusList l e).map (fun s => s.effect_type) =
      if e.effect_type ∈ l.map (fun s => s.effect_type) then
        l.map (fun s => s.effect_type)
      else
        l.map (fun s => s.effect_type) ++ [e.effect_type] := by
  induction l with
  | nil => simp [addStatusList]
  | cons s rest ih =>
    by_cases hst : s.effect_type = e.effect_type
    · simp [addStatusList, hst]
    · simp only [addStatusList, if_neg hst, List.map_cons, ih]
      by_cases hm : e.effect_type ∈ rest.map (fun s => s.effect_type)
      · simp [hm]
      · simp [hm, Ne.symm hst]

/-- `addStatusList` preserves distinctness of status types. -/
theorem addStatusList_nodup {l : List StatusEffect} (e : StatusEffect)
    (h : (l.map (fun s => s.effect_type)).Nodup) :
    ((addStatusList l e).map (fun s => s.effect_type)).Nodup := by
  rw [addStatusList_map_type]
  split
  · exact h
  · next hm => simp [List.nodup_append, h, hm]

/-- Folding any sequence of `add_status` calls keeps status types distinct. -/
theorem foldl_add_status_nodup (u : Unit) (es : List StatusEffect)
    (h : (statusTypes u).Nodup) : (statusTypes (es.foldl Unit.add_status u)).Nodup := by
  induction es generalizing u with
  | nil => exact h
  | cons e rest ih =>
    exact ih (u.add_status e) (addStatusList_nodup e h)

/-- Re-applying a type that is already present (witnessed by `find?`) leaves
exactly one entry of that type, whose duration and value are the pairwise
maxima of the old and the new effect. -/
theorem addStatusList_filter_refresh (l : List StatusEffect) (e old : StatusEffect)
    (hnd : (l.map (fun s => s.effect_type)).Nodup)
    (hf : l.find? (fun s => decide (s.effect_type = e.effect_type)) = some old) :
    (addStatusList l e).filter (fun s => decide (s.effect_type = e.effect_type)) =
      [{ effect_type := e.effect_type, duration := max old.duration e.duration,
         value := max old.value e.value }] := by
  induction l with
  | nil => simp at hf
  | cons s rest ih =>
    by_cases hst : s.effect_type = e.effect_type
    · have hsOld : s = old := by
        have := List.find?_cons_of_pos
          (p := fun s => decide (s.effect_type = e.effect_type)) (a := s) (l := rest)
          (by simp [hst])
        rw [this] at hf
        exact Option.some.inj hf
      have hnotin : e.effect_type ∉ rest.map (fun s => s.effect_type) := by
        rw [← hst]
        exact (List.nodup_cons.mp hnd).1
      have hrest : rest.filter (fun s => decide (s.effect_type = e.effect_type)) = [] := by
        rw [List.filter_eq_nil_iff]
        intro a ha
        simp only [decide_eq_true_eq]
        intro hEq
        exact hnotin (hEq ▸ List.mem_map_of_mem _ ha)
      have hval : (if e.value > s.value then e.value else s.value) = max s.value e.value := by
        split <;> omega
      subst hsOld
      simp [addStatusList, hst, hrest, hval, max_comm]
    · have hf' : rest.find? (fun s => decide (s.effect_type = e.effect_type)) = some old := by
        have := List.find?_cons_of_neg
          (p := fun s => decide (s.effect_type = e.effect_type)) (a := s) (l := rest)
          (by simp [hst])
        rw [this] at hf
        exact hf
      have := ih (List.nodup_cons.mp hnd).2 hf'
      simp [addStatusList, hst, this]

/-- C6: starting from a unit whose status types are distinct (as every
constructed unit is), any sequence of `add_status` calls keeps the types
distinct, and re-applying a present type leaves a single entry whose duration
and value are `max(old, new)` — never the sum. -/
theorem status_stacking (u : Unit) (h : (statusTypes u).Nodup) :
    (∀ es : List StatusEffect, (statusTypes (es.foldl Unit.add_status u)).Nodup) ∧
    (∀ e old : StatusEffect,
      u.statuses.find? (fun s => decide (s.effect_type = e.effect_type)) = some old →
      (u.add_status e).statuses.filter (fun s => decide (s.effect_type = e.effect_type))
        = [{ effect_type := e.effect_type, duration := max old.duration e.duration,
             value := max old.value e.value }]) :=
  ⟨fun es => foldl_add_status_nodup u es h,
   fun e old hf => addStatusList_filter_refresh u.statuses e old h hf⟩

/-- Witness for `status_stacking`: refreshing Strength(duration 2, value 3)
with Strength(duration 1, value 5) leaves one entry with duration 2, value 5. -/
theorem status_stacking_witness :
    (statusTypes strUnit).Nodup ∧
    (statusTypes ([strRefresh].foldl Unit.add_status strUnit)).Nodup ∧
    strUnit.statuses.find? (fun s => decide (s.effect_type = strRefresh.effect_type))
      = some strOld ∧
    (strUnit.add_status strRefresh).statuses.filter
        (fun s => decide (s.effect_type = strRefresh.effect_type))
      = [{ effect_type := strRefresh.effect_type,
           duration := max strOld.duration strRefresh.duration,
           value := max strOld.value strRefresh.value }] :=
  ⟨by decide,
   (status_stacking strUnit (by decide)).1 [strRefresh],
   by decide,
   (status_stacking strUnit (by decide)).2 strRefresh strOld (by decide)⟩

/-! ### C4 lemma layer 1: point updates of the node list -/

theorem updateAt_length (l : List MapNode) (i : Nat) (f : MapNode → MapNode) :
    (updateAt l i f).length = l.length := by
  induction l generalizing i with
  | nil => rfl
  | cons x xs ih =>
    cases i with
    | zero => rfl
    | succ n => simp [updateAt, ih]

theorem updateAt_get?_ne (l : List MapNode) (i j : Nat) (f : MapNode → MapNode)
    (h : j ≠ i) : (updateAt l i f).get? j = l.get? j := by
  induction l generalizing i j with
  | nil => rfl
  | cons x xs ih =>
    cases i with
    | zero =>
      cases j with
      | zero => exact absurd rfl h
      | succ p => rfl
    | succ n =>
      cases j with
      | zero => rfl
      | succ p =>
        simp only [updateAt, List.get?_cons_succ]
        exact ih n p (fun hh => h (by rw [hh]))

theorem updateAt_get?_self (l : List MapNode) (i : Nat) (f : MapNode → MapNode) :
    (updateAt l i f).get? i = (l.get? i).map f := by
  induction l generalizing i with
  | nil => rfl
  | cons x xs ih =>
    cases i with
    | zero => rfl
    | succ n => simpa [updateAt] using ih n

theorem map_updateAt {α : Type} (l : List MapNode) (i : Nat) (f : MapNode → MapNode)
    (g : MapNode → α) (hg : ∀ x, g (f x) = g x) :
    (updateAt l i f).map g = l.map g := by
  induction l generalizing i with
  | nil => rfl
  | cons x xs ih =>
    cases i with
    | zero => simp [updateAt, hg]
    | succ n => simp [updateAt, ih]

theorem skelsOf_length_eq {a b : List MapNode} (h : skelsOf a = skelsOf b) :
    a.length = b.length := by
  simpa [skelsOf] using congrArg List.length h

theorem skelsOf_pushConn (nodes : List MapNode) (i c : Nat) :
    skelsOf (pushConn nodes i c) = skelsOf nodes :=
  map_updateAt nodes i _ skel (fun _ => rfl)

theorem pushConn_length (nodes : List MapNode) (i c : Nat) :
    (pushConn nodes i c).length = nodes.length :=
  updateAt_length nodes i _

theorem connsAt_pushConn_self (nodes : List MapNode) (i c : Nat) (h : i < nodes.length) :
    connsAt (pushConn nodes i c) i = connsAt nodes i ++ [c] := by
  unfold connsAt pushConn
  rw [updateAt_get?_self]
  cases hx : nodes.get? i with
  | none =>
    rw [List.get?_eq_none] at hx
    omega
  | some nd => simp

theorem connsAt_pushConn_ne (nodes : List MapNode) (i j c : Nat) (h : j ≠ i) :
    connsAt (pushConn nodes i c) j = connsAt nodes j := by
  unfold connsAt pushConn
  rw [updateAt_get?_ne _ _ _ _ h]

/-! ### C4 lemma layer 2: the picking loop -/

theorem getD_mem (l : List Nat) (n : Nat) (h : n < l.length) : l.getD n 0 ∈ l := by
  induction l generalizing n with
  | nil => simp at h
  | cons a as ih =>
    cases n with
    | zero => simp
    | succ p =>
      simp only [List.getD_cons_succ]
      exact List.mem_cons_of_mem a (ih p (by simpa using h))

theorem mem_of_mem_eraseIdx {l : List Nat} {n a : Nat} (h : a ∈ l.eraseIdx n) : a ∈ l := by
  induction l generalizing n with
  | nil => simp [List.eraseIdx] at h
  | cons x xs ih =>
    cases n with
    | zero => exact List.mem_cons_of_mem x (by simpa [List.eraseIdx] using h)
    | succ p =>
      simp only [List.eraseIdx] at h
      rcases List.mem_cons.mp h with h1 | h2
      · exact h1 ▸ List.mem_cons_self x xs
      · exact List.mem_cons_of_mem x (ih h2)

theorem pickConns_skels (rng : Rng) (i k : Nat) (avail : List Nat)
    (nodes : List MapNode) (s : RngState) :
    skelsOf ((pickConns rng i k avail nodes s).1) = skelsOf nodes := by
  induction k generalizing avail nodes s with
  | zero => rfl
  | succ k ih =>
    simp only [pickConns, Rng.genRange]
    split
    · rfl
    · rw [ih]
      exact skelsOf_pushConn nodes i _

theorem pickConns_length (rng : Rng) (i k : Nat) (avail : List Nat)
    (nodes : List MapNode) (s : RngState) :
    ((pickConns rng i k avail nodes s).1).length = nodes.length :=
  skelsOf_length_eq (pickConns_skels rng i k avail nodes s)

theorem pickConns_conns_ne (rng : Rng) (i k : Nat) (avail : List Nat)
    (nodes : List MapNode) (s : RngState) (j : Nat) (h : j ≠ i) :
    connsAt ((pickConns rng i k avail nodes s).1) j = connsAt nodes j := by
  induction k generalizing avail nodes s with
  | zero => rfl
  | succ k ih =>
    simp only [pickConns, Rng.genRange]
    split
    · rfl
    · rw [ih, connsAt_pushConn_ne _ _ _ _ h]

theorem pickConns_conns_self (rng : Rng) (i k : Nat) (avail : List Nat)
    (nodes : List MapNode) (s : RngState) (hi : i < nodes.length) :
    ∃ extra, connsAt ((pickConns rng i k avail nodes s).1) i = connsAt nodes i ++ extra ∧
      (∀ c ∈ extra, c ∈ avail) ∧ (k ≠ 0 → avail ≠ [] → extra ≠ []) := by
  induction k generalizing avail nodes s hi with
  | zero => exact ⟨[], by simp [pickConns], by simp, fun h _ => absurd rfl h⟩
  | succ k ih =>
    simp only [pickConns, Rng.genRange]
    by_cases hav : avail.isEmpty
    · rw [if_pos hav]
      refine ⟨[], by simp, by simp, ?_⟩
      intro _ hne
      exact absurd (List.isEmpty_iff.mp hav) hne
    · rw [if_neg hav]
      have hlen : 0 < avail.length := by
        cases avail with
        | nil => simp at hav
        | cons a as => simp
      have hpicklt : 0 + rng.ints s.iidx % (avail.length - 0) < avail.length := by
        simpa using Nat.mod_lt (rng.ints s.iidx) hlen
      have hc : avail.getD (0 + rng.ints s.iidx % (avail.length - 0)) 0 ∈ avail :=
        getD_mem avail _ hpicklt
      obtain ⟨extra, hextra, hsub, _⟩ :=
        ih (avail.eraseIdx (0 + rng.ints s.iidx % (avail.length - 0)))
          (pushConn nodes i (avail.getD (0 + rng.ints s.iidx % (avail.length - 0)) 0))
          { s with iidx := s.iidx + 1 }
          (by rw [pushConn_length]; exact hi)
      refine ⟨avail.getD (0 + rng.ints s.iidx % (avail.length - 0)) 0 :: extra, ?_, ?_, ?_⟩
      · rw [hextra, connsAt_pushConn_self _ _ _ hi]
        simp
      · intro x hx
        rcases List.mem_cons.mp hx with h1 | h2
        · exact h1 ▸ hc
        · exact mem_of_mem_eraseIdx (hsub x h2)
      · simp

/-! ### C4 lemma layer 3: the per-layer connection pass -/

theorem connectFrom_skels (rng : Rng) (next cur : List Nat) (nodes : List MapNode)
    (s : RngState) : skelsOf ((connectFrom rng next cur nodes s).1) = skelsOf nodes := by
  induction cur generalizing nodes s with
  | nil => rfl
  | cons a rest ih =>
    simp only [connectFrom]
    rw [ih, pickConns_skels]

theorem connectFrom_length (rng : Rng) (next cur : List Nat) (nodes : List MapNode)
    (s : RngState) : ((connectFrom rng next cur nodes s).1).length = nodes.length :=
  skelsOf_length_eq (connectFrom_skels rng next cur nodes s)

theorem connectFrom_conns_ne (rng : Rng) (next cur : List Nat) (nodes : List MapNode)
    (s : RngState) (j : Nat) (h : j ∉ cur) :
    connsAt ((connectFrom rng next cur nodes s).1) j = connsAt nodes j := by
  induction cur generalizing nodes s with
  | nil => rfl
  | cons a rest ih =>
    simp only [connectFrom]
    have h1 : j ∉ rest := fun hj => h (List.mem_cons_of_mem a hj)
    have h2 : j ≠ a := fun hj => h (by rw [hj]; exact List.mem_cons_self a rest)
    rw [ih _ _ h1, pickConns_conns_ne _ _ _ _ _ _ _ h2]

theorem connectFrom_conns_mem (rng : Rng) (next cur : List Nat) (nodes : List MapNode)
    (s : RngState) (idx : Nat) (hval : ∀ x ∈ cur, x < nodes.length) (hnext : next ≠ [])
    (hidx : idx ∈ cur) :
    ∃ extra, connsAt ((connectFrom rng next cur nodes s).1) idx
        = connsAt nodes idx ++ extra ∧ extra ≠ [] ∧ ∀ c ∈ extra, c ∈ next := by
  induction cur generalizing nodes s with
  | nil => cases hidx
  | cons a rest ih =>
    simp only [connectFrom]
    have hk : (if next.length = 1 then ((1 : Nat), s)
        else rng.genRange 1 (min 2 next.length + 1) s).1 ≠ 0 := by
      split
      · simp
      · simp [Rng.genRange]
    by_cases hia : idx = a
    · subst hia
      obtain ⟨e1, he1, hsub1, hne1⟩ :=
        pickConns_conns_self rng idx
          (if next.length = 1 then ((1 : Nat), s)
            else rng.genRange 1 (min 2 next.length + 1) s).1 next nodes
          (if next.length = 1 then ((1 : Nat), s)
            else rng.genRange 1 (min 2 next.length + 1) s).2
          (hval idx hidx)
      have he1ne : e1 ≠ [] := hne1 hk hnext
      by_cases hr : idx ∈ rest
      · obtain ⟨e2, he2, hne2, hsub2⟩ :=
          ih (pickConns rng idx _ next nodes _).1 (pickConns rng idx _ next nodes _).2
            (fun x hx => by rw [pickConns_length]; exact hval x (List.mem_cons_of_mem _ hx))
            hr
        refine ⟨e1 ++ e2, ?_, by simp [he1ne], ?_⟩
        · rw [he2, he1, List.append_assoc]
        · intro c hc
          rcases List.mem_append.mp hc with h1 | h2
          · exact hsub1 c h1
          · exact hsub2 c h2
      · rw [connectFrom_conns_ne rng next rest _ _ idx hr, he1]
        exact ⟨e1, rfl, he1ne, hsub1⟩
    · have hr : idx ∈ rest := by
        rcases List.mem_cons.mp hidx with h1 | h2
        · exact absurd h1 hia
        · exact h2
      obtain ⟨e2, he2, hne2, hsub2⟩ :=
        ih (pickConns rng a _ next nodes _).1 (pickConns rng a _ next nodes _).2
          (fun x hx => by rw [pickConns_length]; exact hval x (List.mem_cons_of_mem a hx))
          hr
      refine ⟨e2, ?_, hne2, hsub2⟩
      rw [he2, pickConns_conns_ne _ _ _ _ _ _ _ hia]

/-! ### C4 lemma layer 4: the repair pass -/

theorem repairLayer_skels (rng : Rng) (cur rem : List Nat) (nodes : List MapNode)
    (s : RngState) : skelsOf ((repairLayer rng cur rem nodes s).1) = skelsOf nodes := by
  induction rem generalizing nodes s with
  | nil => rfl
  | cons nn rest ih =>
    simp only [repairLayer]
    split
    · exact ih nodes s
    · rw [ih, skelsOf_pushConn]

theorem repairLayer_length (rng : Rng) (cur rem : List Nat) (nodes : List MapNode)
    (s : RngState) : ((repairLayer rng cur rem nodes s).1).length = nodes.length :=
  skelsOf_length_eq (repairLayer_skels rng cur rem nodes s)

theorem repairLayer_conns_ne (rng : Rng) (cur rem : List Nat) (nodes : List MapNode)
    (s : RngState) (j : Nat) (h : j ∉ cur) :
    connsAt ((repairLayer rng cur rem nodes s).1) j = connsAt nodes j := by
  induction rem generalizing nodes s with
  | nil => rfl
  | cons nn rest ih =>
    simp only [repairLayer]
    split
    · exact ih nodes s
    · next hcond =>
      have hcur : cur ≠ [] := by
        intro hc
        exact hcond (Or.inr (by simp [hc]))
      have hlen : 0 < cur.length := List.length_pos.mpr hcur
      have hsrc : cur.getD (rng.genRange 0 cur.length s).1 0 ∈ cur := by
        apply getD_mem
        simp only [Rng.genRange]
        simpa using Nat.mod_lt (rng.ints s.iidx) hlen
      rw [ih, connsAt_pushConn_ne _ _ _ _ (fun hj => h (by rw [hj]; exact hsrc))]

theorem repairLayer_conns_mono (rng : Rng) (cur rem : List Nat) (nodes : List MapNode)
    (s : RngState) (hval : ∀ x ∈ cur, x < nodes.length) (j : Nat) :
    ∃ t, connsAt ((repairLayer rng cur rem nodes s).1) j = connsAt nodes j ++ t ∧
      ∀ c ∈ t, c ∈ rem := by
  induction rem generalizing nodes s with
  | nil => exact ⟨[], by simp [repairLayer], by simp⟩
  | cons nn rest ih =>
    simp only [repairLayer]
    split
    · obtain ⟨t, ht, hsub⟩ := ih nodes s hval
      exact ⟨t, ht, fun c hc => List.mem_cons_of_mem nn (hsub c hc)⟩
    · next hcond =>
      have hcur : cur ≠ [] := by
        intro hc
        exact hcond (Or.inr (by simp [hc]))
      have hlen : 0 < cur.length := List.length_pos.mpr hcur
      have hsrc : cur.getD (rng.genRange 0 cur.length s).1 0 ∈ cur := by
        apply getD_mem
        simp only [Rng.genRange]
        simpa using Nat.mod_lt (rng.ints s.iidx) hlen
      obtain ⟨t, ht, hsub⟩ :=
        ih (pushConn nodes (cur.getD (rng.genRange 0 cur.length s).1 0) nn)
          (rng.genRange 0 cur.length s).2
          (fun x hx => by rw [pushConn_length]; exact hval x hx)
      by_cases hj : j = cur.getD (rng.genRange 0 cur.length s).1 0
      · subst hj
        rw [ht, connsAt_pushConn_self _ _ _ (hval _ hsrc), List.append_assoc]
        exact ⟨[nn] ++ t, rfl, by
          intro c hc
          rcases List.mem_append.mp hc with h1 | h2
          · simp at h1
            simp [h1]
          · exact List.mem_cons_of_mem nn (hsub c h2)⟩
      · rw [ht, connsAt_pushConn_ne _ _ _ _ hj]
        exact ⟨t, rfl, fun c hc => List.mem_cons_of_mem nn (hsub c hc)⟩

theorem repairLayer_incoming (rng : Rng) (cur rem : List Nat) (nodes : List MapNode)
    (s : RngState) (hval : ∀ x ∈ cur, x < nodes.length) (hcur : cur ≠ []) :
    ∀ nn ∈ rem, ∃ src ∈ cur, nn ∈ connsAt ((repairLayer rng cur rem nodes s).1) src := by
  induction rem generalizing nodes s with
  | nil => intro nn hnn; cases hnn
  | cons nn0 rest ih =>
    intro nn hnn
    simp only [repairLayer]
    split
    · next hcond =>
      rcases List.mem_cons.mp hnn with rfl | hr
      · have hinc : (cur.any fun n => (connsAt nodes n).contains nn) = true := by
          rcases hcond with h1 | h2
          · exact h1
          · exact absurd (List.isEmpty_iff.mp h2) hcur
        rw [List.any_eq_true] at hinc
        obtain ⟨src, hsrcmem, hsrcc⟩ := hinc
        have hmem : nn ∈ connsAt nodes src := by
          simpa using hsrcc
        obtain ⟨t, ht, _⟩ := repairLayer_conns_mono rng cur rest nodes s hval src
        exact ⟨src, hsrcmem, by rw [ht]; exact List.mem_append_left t hmem⟩
      · exact ih nodes s hval nn hr
    · next hcond =>
      have hlen : 0 < cur.length := List.length_pos.mpr hcur
      have hsrc : cur.getD (rng.genRange 0 cur.length s).1 0 ∈ cur := by
        apply getD_mem
        simp only [Rng.genRange]
        simpa using Nat.mod_lt (rng.ints s.iidx) hlen
      rcases List.mem_cons.mp hnn with rfl | hr
      · obtain ⟨t, ht, _⟩ :=
          repairLayer_conns_mono rng cur rest
            (pushConn nodes (cur.getD (rng.genRange 0 cur.length s).1 0) nn)
            (rng.genRange 0 cur.length s).2
            (fun x hx => by rw [pushConn_length]; exact hval x hx)
            (cur.getD (rng.genRange 0 cur.length s).1 0)
        refine ⟨cur.getD (rng.genRange 0 cur.length s).1 0, hsrc, ?_⟩
        rw [ht, connsAt_pushConn_self _ _ _ (hval _ hsrc)]
        simp
      · exact ih _ _ (fun x hx => by rw [pushConn_length]; exact hval x hx) nn hr

/-! ### C4 lemma layer 5: the full second pass -/

theorem updateAt_oob (l : List MapNode) (i : Nat) (f : MapNode → MapNode)
    (h : l.length ≤ i) : updateAt l i f = l := by
  induction l generalizing i with
  | nil => rfl
  | cons x xs ih =>
    cases i with
    | zero => simp at h
    | succ n => simp [updateAt, ih n (by simpa using h)]

theorem pushConn_mono (nodes : List MapNode) (i c j : Nat) :
    ∃ t, connsAt (pushConn nodes i c) j = connsAt nodes j ++ t := by
  by_cases hj : j = i
  · subst hj
    by_cases hlt : j < nodes.length
    · exact ⟨[c], connsAt_pushConn_self nodes j c hlt⟩
    · refine ⟨[], ?_⟩
      unfold pushConn
      rw [updateAt_oob _ _ _ (by omega)]
      simp
  · exact ⟨[], by rw [connsAt_pushConn_ne _ _ _ _ hj]; simp⟩

theorem pickConns_mono (rng : Rng) (i k : Nat) (avail : List Nat)
    (nodes : List MapNode) (s : RngState) (j : Nat) :
    ∃ t, connsAt ((pickConns rng i k avail nodes s).1) j = connsAt nodes j ++ t := by
  induction k generalizing avail nodes s with
  | zero => exact ⟨[], by simp [pickConns]⟩
  | succ k ih =>
    simp only [pickConns]
    split
    · exact ⟨[], by simp⟩
    · obtain ⟨t1, ht1⟩ := pushConn_mono nodes i (avail.getD (rng.genRange 0 avail.length s).1 0) j
      obtain ⟨t2, ht2⟩ := ih (avail.eraseIdx (rng.genRange 0 avail.length s).1)
        (pushConn nodes i (avail.getD (rng.genRange 0 avail.length s).1 0))
        (rng.genRange 0 avail.length s).2
      exact ⟨t1 ++ t2, by rw [ht2, ht1, List.append_assoc]⟩

theorem connectFrom_mono (rng : Rng) (next cur : List Nat) (nodes : List MapNode)
    (s : RngState) (j : Nat) :
    ∃ t, connsAt ((connectFrom rng next cur nodes s).1) j = connsAt nodes j ++ t := by
  induction cur generalizing nodes s with
  | nil => exact ⟨[], by simp [connectFrom]⟩
  | cons a rest ih =>
    simp only [connectFrom]
    obtain ⟨t1, ht1⟩ := pickConns_mono rng a
      (if next.length = 1 then ((1 : Nat), s)
        else rng.genRange 1 (min 2 next.length + 1) s).1 next nodes
      (if next.length = 1 then ((1 : Nat), s)
        else rng.genRange 1 (min 2 next.length + 1) s).2 j
    obtain ⟨t2, ht2⟩ := ih (pickConns rng a _ next nodes _).1 (pickConns rng a _ next nodes _).2
    exact ⟨t1 ++ t2, by rw [ht2, ht1, List.append_assoc]⟩

theorem repairLayer_mono (rng : Rng) (cur rem : List Nat) (nodes : List MapNode)
    (s : RngState) (j : Nat) :
    ∃ t, connsAt ((repairLayer rng cur rem nodes s).1) j = connsAt nodes j ++ t := by
  induction rem generalizing nodes s with
  | nil => exact ⟨[], by simp [repairLayer]⟩
  | cons nn rest ih =>
    simp only [repairLayer]
    split
    · exact ih nodes s
    · obtain ⟨t1, ht1⟩ := pushConn_mono nodes (cur.getD (rng.genRange 0 cur.length s).1 0) nn j
      obtain ⟨t2, ht2⟩ := ih (pushConn nodes (cur.getD (rng.genRange 0 cur.length s).1 0) nn)
        (rng.genRange 0 cur.length s).2
      exact ⟨t1 ++ t2, by rw [ht2, ht1, List.append_assoc]⟩

theorem connectLayers_skels (rng : Rng) (ss : List (List Nat)) (nodes : List MapNode)
    (s : RngState) : skelsOf ((connectLayers rng ss nodes s).1) = skelsOf nodes := by
  induction ss generalizing nodes s with
  | nil => rfl
  | cons cur tail ih =>
    cases tail with
    | nil => rfl
    | cons next rest =>
      simp only [connectLayers]
      rw [ih, repairLayer_skels, connectFrom_skels]

theorem connectLayers_length (rng : Rng) (ss : List (List Nat)) (nodes : List MapNode)
    (s : RngState) : ((connectLayers rng ss nodes s).1).length = nodes.length :=
  skelsOf_length_eq (connectLayers_skels rng ss nodes s)

theorem connectLayers_mono (rng : Rng) (ss : List (List Nat)) (nodes : List MapNode)
    (s : RngState) (j : Nat) :
    ∃ t, connsAt ((connectLayers rng ss nodes s).1) j = connsAt nodes j ++ t := by
  induction ss generalizing nodes s with
  | nil => exact ⟨[], by simp [connectLayers]⟩
  | cons cur tail ih =>
    cases tail with
    | nil => exact ⟨[], by simp [connectLayers]⟩
    | cons next rest =>
      simp only [connectLayers]
      obtain ⟨t1, ht1⟩ := connectFrom_mono rng next cur nodes s j
      obtain ⟨t2, ht2⟩ := repairLayer_mono rng cur next
        (connectFrom rng next cur nodes s).1 (connectFrom rng next cur nodes s).2 j
      obtain ⟨t3, ht3⟩ := ih
        (repairLayer rng cur next (connectFrom rng next cur nodes s).1
          (connectFrom rng next cur nodes s).2).1
        (repairLayer rng cur next (connectFrom rng next cur nodes s).1
          (connectFrom rng next cur nodes s).2).2
      exact ⟨t1 ++ t2 ++ t3, by rw [ht3, ht2, ht1]; simp [List.append_assoc]⟩

theorem layersDisjoint_tail {a : List Nat} {t : List (List Nat)}
    (h : LayersDisjoint (a :: t)) : LayersDisjoint t := by
  intro i j li lj hij hi hj
  refine h (i + 1) (j + 1) li lj (by omega) ?_ ?_
  · rw [List.get?_cons_succ]; exact hi
  · rw [List.get?_cons_succ]; exact hj

theorem mem_dropLast_get? {l : List Nat} {ss : List (List Nat)}
    (h : l ∈ ss.dropLast) : ∃ i, i + 1 < ss.length ∧ ss.get? i = some l := by
  induction ss with
  | nil => simp at h
  | cons a t ih =>
    cases t with
    | nil => simp at h
    | cons b u =>
      have hdl : (a :: b :: u).dropLast = a :: (b :: u).dropLast := rfl
      rw [hdl] at h
      rcases List.mem_cons.mp h with rfl | h2
      · exact ⟨0, by simp, rfl⟩
      · obtain ⟨i, hi, hgi⟩ := ih h2
        exact ⟨i + 1, by simpa using hi, by rw [List.get?_cons_succ]; exact hgi⟩

theorem connectLayers_untouched (rng : Rng) (ss : List (List Nat)) (nodes : List MapNode)
    (s : RngState) (j : Nat) (h : ∀ l ∈ ss.dropLast, j ∉ l) :
    connsAt ((connectLayers rng ss nodes s).1) j = connsAt nodes j := by
  induction ss generalizing nodes s with
  | nil => rfl
  | cons cur tail ih =>
    cases tail with
    | nil => rfl
    | cons next rest =>
      simp only [connectLayers]
      have hjcur : j ∉ cur := by
        apply h
        show cur ∈ (cur :: (next :: rest).dropLast)
        exact List.mem_cons_self _ _
      have htail : ∀ l ∈ (next :: rest).dropLast, j ∉ l := by
        intro l hl
        apply h
        show l ∈ (cur :: (next :: rest).dropLast)
        exact List.mem_cons_of_mem cur hl
      rw [ih _ _ htail, repairLayer_conns_ne _ _ _ _ _ _ hjcur,
          connectFrom_conns_ne _ _ _ _ _ _ hjcur]

theorem connectLayers_outgoing (rng : Rng) (ss : List (List Nat)) (nodes : List MapNode)
    (s : RngState)
    (hval : ∀ l ∈ ss, ∀ x ∈ l, x < nodes.length)
    (hne : ∀ l ∈ ss, l ≠ [])
    (hdisj : LayersDisjoint ss) :
    ∀ k cur next, ss.get? k = some cur → ss.get? (k + 1) = some next →
      ∀ idx ∈ cur, ∃ extra,
        connsAt ((connectLayers rng ss nodes s).1) idx = connsAt nodes idx ++ extra ∧
        extra ≠ [] ∧ ∀ c ∈ extra, c ∈ next := by
  induction ss generalizing nodes s with
  | nil =>
    intro k cur next hk
    simp at hk
  | cons cur0 tail ih =>
    cases tail with
    | nil =>
      intro k cur next hk hk1
      rcases k with _ | k2 <;> simp at hk1
    | cons next0 rest =>
      intro k cur next hk hk1 idx hidx
      simp only [connectLayers]
      cases k with
      | zero =>
        have hcur : cur0 = cur := Option.some.inj hk
        subst hcur
        have hnext : next0 = next := Option.some.inj (by simpa using hk1)
        subst hnext
        obtain ⟨e1, he1, he1ne, hsub1⟩ :=
          connectFrom_conns_mem rng next0 cur0 nodes s idx
            (hval cur0 (List.mem_cons_self _ _))
            (hne next0 (List.mem_cons_of_mem _ (List.mem_cons_self _ _)))
            hidx
        obtain ⟨e2, he2, hsub2⟩ :=
          repairLayer_conns_mono rng cur0 next0
            (connectFrom rng next0 cur0 nodes s).1 (connectFrom rng next0 cur0 nodes s).2
            (fun x hx => by
              rw [connectFrom_length]
              exact hval cur0 (List.mem_cons_self _ _) x hx)
            idx
        have huntouched :
            connsAt ((connectLayers rng (next0 :: rest)
                (repairLayer rng cur0 next0 (connectFrom rng next0 cur0 nodes s).1
                  (connectFrom rng next0 cur0 nodes s).2).1
                (repairLayer rng cur0 next0 (connectFrom rng next0 cur0 nodes s).1
                  (connectFrom rng next0 cur0 nodes s).2).2).1) idx
              = connsAt ((repairLayer rng cur0 next0 (connectFrom rng next0 cur0 nodes s).1
                  (connectFrom rng next0 cur0 nodes s).2).1) idx := by
          apply connectLayers_untouched
          intro l hl
          obtain ⟨i, hilen, higet⟩ := mem_dropLast_get? hl
          exact hdisj 0 (i + 1) cur0 l (by omega) rfl
            (by rw [List.get?_cons_succ]; exact higet) idx hidx
        rw [huntouched, he2, he1, List.append_assoc]
        refine ⟨e1 ++ e2, rfl, by simp [he1ne], ?_⟩
        intro c hc
        rcases List.mem_append.mp hc with h1 | h2
        · exact hsub1 c h1
        · exact hsub2 c h2
      | succ k2 =>
        have hk' : (next0 :: rest).get? k2 = some cur := by simpa using hk
        have hk1' : (next0 :: rest).get? (k2 + 1) = some next := by simpa using hk1
        have hidxnot : idx ∉ cur0 := by
          intro hin
          exact hdisj 0 (k2 + 1) cur0 cur (by omega) rfl
            (by rw [List.get?_cons_succ]; exact hk') idx hin hidx
        have hstep :
            connsAt ((repairLayer rng cur0 next0 (connectFrom rng next0 cur0 nodes s).1
                (connectFrom rng next0 cur0 nodes s).2).1) idx = connsAt nodes idx := by
          rw [repairLayer_conns_ne _ _ _ _ _ _ hidxnot,
              connectFrom_conns_ne _ _ _ _ _ _ hidxnot]
        obtain ⟨extra, hx, hxne, hxsub⟩ :=
          ih (repairLayer rng cur0 next0 (connectFrom rng next0 cur0 nodes s).1
              (connectFrom rng next0 cur0 nodes s).2).1
            (repairLayer rng cur0 next0 (connectFrom rng next0 cur0 nodes s).1
              (connectFrom rng next0 cur0 nodes s).2).2
            (fun l hl x hx => by
              rw [repairLayer_length, connectFrom_length]
              exact hval l (List.mem_cons_of_mem cur0 hl) x hx)
            (fun l hl => hne l (List.mem_cons_of_mem cur0 hl))
            (layersDisjoint_tail hdisj)
            k2 cur next hk' hk1' idx hidx
        rw [hx, hstep]
        exact ⟨extra, rfl, hxne, hxsub⟩

theorem connectLayers_incoming (rng : Rng) (ss : List (List Nat)) (nodes : List MapNode)
    (s : RngState)
    (hval : ∀ l ∈ ss, ∀ x ∈ l, x < nodes.length)
    (hne : ∀ l ∈ ss, l ≠ []) :
    ∀ k cur next, ss.get? k = some cur → ss.get? (k + 1) = some next →
      ∀ nn ∈ next, ∃ src ∈ cur, nn ∈ connsAt ((connectLayers rng ss nodes s).1) src := by
  induction ss generalizing nodes s with
  | nil =>
    intro k cur next hk
    simp at hk
  | cons cur0 tail ih =>
    cases tail with
    | nil =>
      intro k cur next hk hk1
      rcases k with _ | k2 <;> simp at hk1
    | cons next0 rest =>
      intro k cur next hk hk1 nn hnn
      simp only [connectLayers]
      cases k with
      | zero =>
        have hcur : cur0 = cur := Option.some.inj hk
        subst hcur
        have hnext : next0 = next := Option.some.inj (by simpa using hk1)
        subst hnext
        obtain ⟨src, hsrcmem, hsrcin⟩ :=
          repairLayer_incoming rng cur0 next0
            (connectFrom rng next0 cur0 nodes s).1 (connectFrom rng next0 cur0 nodes s).2
            (fun x hx => by
              rw [connectFrom_length]
              exact hval cur0 (List.mem_cons_self _ _) x hx)
            (hne cur0 (List.mem_cons_self _ _))
            nn hnn
        obtain ⟨t, ht⟩ := connectLayers_mono rng (next0 :: rest)
          (repairLayer rng cur0 next0 (connectFrom rng next0 cur0 nodes s).1
            (connectFrom rng next0 cur0 nodes s).2).1
          (repairLayer rng cur0 next0 (connectFrom rng next0 cur0 nodes s).1
            (connectFrom rng next0 cur0 nodes s).2).2
          src
        exact ⟨src, hsrcmem, by rw [ht]; exact List.mem_append_left t hsrcin⟩
      | succ k2 =>
        have hk' : (next0 :: rest).get? k2 = some cur := by simpa using hk
        have hk1' : (next0 :: rest).get? (k2 + 1) = some next := by simpa using hk1
        exact ih (repairLayer rng cur0 next0 (connectFrom rng next0 cur0 nodes s).1
              (connectFrom rng next0 cur0 nodes s).2).1
            (repairLayer rng cur0 next0 (connectFrom rng next0 cur0 nodes s).1
              (connectFrom rng next0 cur0 nodes s).2).2
            (fun l hl x hx => by
              rw [repairLayer_length, connectFrom_length]
              exact hval l (List.mem_cons_of_mem cur0 hl) x hx)
            (fun l hl => hne l (List.mem_cons_of_mem cur0 hl))
            k2 cur next hk' hk1' nn hnn

/-! ### C4 lemma layer 6: the first (layer-building) pass -/

theorem mkNodes_length (rng : Rng) (m : Mission) (num_layers layer : Nat) :
    ∀ (count pos nid : Nat) (s : RngState),
      ((mkNodes rng m num_layers layer count pos nid s).1).length = count := by
  intro count
  induction count with
  | zero => intro pos nid s; rfl
  | succ c ih =>
    intro pos nid s
    simp only [mkNodes, List.length_cons, ih]

theorem mkNodes_ids (rng : Rng) (m : Mission) (num_layers layer : Nat) :
    ∀ (count pos nid : Nat) (s : RngState),
      ((mkNodes rng m num_layers layer count pos nid s).1).map (fun nd => nd.id)
        = List.range' nid count := by
  intro count
  induction count with
  | zero => intro pos nid s; rfl
  | succ c ih =>
    intro pos nid s
    simp only [mkNodes, List.map_cons, ih, List.range'_succ]

theorem mkNodes_fields (rng : Rng) (m : Mission) (num_layers layer : Nat) :
    ∀ (count pos nid : Nat) (s : RngState),
      ∀ nd ∈ (mkNodes rng m num_layers layer count pos nid s).1,
        nd.layer = layer ∧ nd.connections = [] := by
  intro count
  induction count with
  | zero => intro pos nid s nd hnd; cases hnd
  | succ c ih =>
    intro pos nid s nd hnd
    simp only [mkNodes] at hnd
    rcases List.mem_cons.mp hnd with rfl | h2
    · exact ⟨rfl, rfl⟩
    · exact ih (pos + 1) (nid + 1) _ nd h2

theorem mkNodes_final_type (rng : Rng) (m : Mission) (num_layers layer : Nat)
    (h0 : layer ≠ 0) (h1 : layer = num_layers - 1) :
    ∀ (count pos nid : Nat) (s : RngState),
      ∀ nd ∈ (mkNodes rng m num_layers layer count pos nid s).1,
        nd.node_type = finalNodeType m := by
  intro count
  induction count with
  | zero => intro pos nid s nd hnd; cases hnd
  | succ c ih =>
    intro pos nid s nd hnd
    simp only [mkNodes] at hnd
    rcases List.mem_cons.mp hnd with rfl | h2
    · subst h1
      simp [nodeTypeFor, h0]
    · exact ih (pos + 1) (nid + 1) _ nd h2

theorem buildLayers_layers_length (rng : Rng) (m : Mission) (num_layers : Nat) :
    ∀ (rem layer nid : Nat) (s : RngState),
      ((buildLayers rng m num_layers rem layer nid s).2.1).length = rem := by
  intro rem
  induction rem with
  | zero => intro layer nid s; rfl
  | succ r ih =>
    intro layer nid s
    simp only [buildLayers, List.length_cons, ih]

theorem buildLayers_ids (rng : Rng) (m : Mission) (num_layers : Nat) :
    ∀ (rem layer nid : Nat) (s : RngState),
      ((buildLayers rng m num_layers rem layer nid s).1).map (fun nd => nd.id)
        = List.range' nid ((buildLayers rng m num_layers rem layer nid s).1).length := by
  intro rem
  induction rem with
  | zero => intro layer nid s; rfl
  | succ r ih =>
    intro layer nid s
    simp only [buildLayers, List.map_append, List.length_append, mkNodes_ids,
      mkNodes_length, ih]
    rw [List.range'_append_1]
    exact congrArg (fun k => List.range' nid k) (by omega)

theorem buildLayers_layer_bounds (rng : Rng) (m : Mission) (num_layers : Nat) :
    ∀ (rem layer nid : Nat) (s : RngState),
      ∀ nd ∈ (buildLayers rng m num_layers rem layer nid s).1,
        layer ≤ nd.layer ∧ nd.layer < layer + rem := by
  intro rem
  induction rem with
  | zero => intro layer nid s nd hnd; cases hnd
  | succ r ih =>
    intro layer nid s nd hnd
    simp only [buildLayers] at hnd
    rcases List.mem_append.mp hnd with h1 | h2
    · have := (mkNodes_fields rng m num_layers layer _ _ _ _ nd h1).1
      omega
    · have := ih (layer + 1) _ _ nd h2
      omega

theorem buildLayers_conns (rng : Rng) (m : Mission) (num_layers : Nat) :
    ∀ (rem layer nid : Nat) (s : RngState),
      ∀ nd ∈ (buildLayers rng m num_layers rem layer nid s).1, nd.connections = [] := by
  intro rem
  induction rem with
  | zero => intro layer nid s nd hnd; cases hnd
  | succ r ih =>
    intro layer nid s nd hnd
    simp only [buildLayers] at hnd
    rcases List.mem_append.mp hnd with h1 | h2
    · exact (mkNodes_fields rng m num_layers layer _ _ _ _ nd h1).2
    · exact ih (layer + 1) _ _ nd h2

theorem buildLayers_final_type (rng : Rng) (m : Mission) (num_layers : Nat) :
    ∀ (rem layer nid : Nat) (s : RngState),
      ∀ nd ∈ (buildLayers rng m num_layers rem layer nid s).1,
        nd.layer ≠ 0 → nd.layer = num_layers - 1 → nd.node_type = finalNodeType m := by
  intro rem
  induction rem with
  | zero => intro layer nid s nd hnd; cases hnd
  | succ r ih =>
    intro layer nid s nd hnd hnd0 hnd1
    simp only [buildLayers] at hnd
    rcases List.mem_append.mp hnd with h1 | h2
    · have hlay := (mkNodes_fields rng m num_layers layer _ _ _ _ nd h1).1
      exact mkNodes_final_type rng m num_layers layer (hlay ▸ hnd0) (hlay ▸ hnd1)
        _ _ _ _ nd h1
    · exact ih (layer + 1) _ _ nd h2 hnd0 hnd1

theorem mkNodes_filter_self (rng : Rng) (m : Mission) (num_layers layer count pos nid : Nat)
    (s : RngState) :
    ((mkNodes rng m num_layers layer count pos nid s).1).filter
        (fun nd => nd.layer = layer)
      = (mkNodes rng m num_layers layer count pos nid s).1 := by
  apply List.filter_eq_self.mpr
  intro nd hnd
  have := (mkNodes_fields rng m num_layers layer count pos nid s nd hnd).1
  simp [this]

theorem mkNodes_filter_ne (rng : Rng) (m : Mission) (num_layers layer count pos nid : Nat)
    (s : RngState) (t : Nat) (h : t ≠ layer) :
    ((mkNodes rng m num_layers layer count pos nid s).1).filter
        (fun nd => nd.layer = t) = [] := by
  apply List.filter_eq_nil_iff.mpr
  intro nd hnd
  have := (mkNodes_fields rng m num_layers layer count pos nid s nd hnd).1
  simp only [decide_eq_true_eq]
  omega

theorem buildLayers_filter_below (rng : Rng) (m : Mission) (num_layers rem layer nid : Nat)
    (s : RngState) (t : Nat) (h : t < layer) :
    ((buildLayers rng m num_layers rem layer nid s).1).filter
        (fun nd => nd.layer = t) = [] := by
  apply List.filter_eq_nil_iff.mpr
  intro nd hnd
  have := buildLayers_layer_bounds rng m num_layers rem layer nid s nd hnd
  simp only [decide_eq_true_eq]
  omega

theorem buildLayers_layer_ids (rng : Rng) (m : Mission) (num_layers : Nat) :
    ∀ (rem layer nid : Nat) (s : RngState) (i : Nat) (l : List Nat),
      ((buildLayers rng m num_layers rem layer nid s).2.1).get? i = some l →
      l = (((buildLayers rng m num_layers rem layer nid s).1).filter
            (fun nd => nd.layer = layer + i)).map (fun nd => nd.id) := by
  intro rem
  induction rem with
  | zero => intro layer nid s i l hl; simp [buildLayers] at hl
  | succ r ih =>
    intro layer nid s i l hl
    simp only [buildLayers] at hl ⊢
    cases i with
    | zero =>
      have hlval := Option.some.inj hl
      subst hlval
      rw [List.filter_append]
      rw [show layer + 0 = layer from rfl, mkNodes_filter_self,
          buildLayers_filter_below rng m num_layers r (layer + 1) _ _ layer (by omega),
          List.append_nil, mkNodes_ids, List.range'_eq_map_range]
    | succ i2 =>
      have hl' := ih (layer + 1) _ _ i2 l (by simpa using hl)
      rw [List.filter_append,
          mkNodes_filter_ne rng m num_layers layer _ _ _ _ _ (by omega),
          List.nil_append, hl']
      have harith : layer + 1 + i2 = layer + (i2 + 1) := by omega
      rw [harith]

theorem buildLayers_layer_nonempty (rng : Rng) (m : Mission) (num_layers : Nat) :
    ∀ (rem layer nid : Nat) (s : RngState) (i : Nat) (l : List Nat),
      ((buildLayers rng m num_layers rem layer nid s).2.1).get? i = some l → l ≠ [] := by
  intro rem
  induction rem with
  | zero => intro layer nid s i l hl; simp [buildLayers] at hl
  | succ r ih =>
    intro layer nid s i l hl
    simp only [buildLayers] at hl
    cases i with
    | zero =>
      have hlval := Option.some.inj hl
      subst hlval
      have hn : (if layer = 0 ∨ layer = num_layers - 1 then ((1 : Nat), s)
          else rng.genRange 1 ((if 6 ≤ m.length then 3 else 2) + 1) s).1 ≠ 0 := by
        split
        · simp
        · simp [Rng.genRange]
      simp [List.range_eq_nil, hn]
    | succ i2 => exact ih (layer + 1) _ _ i2 l (by simpa using hl)

theorem buildLayers_edge_single (rng : Rng) (m : Mission) (num_layers : Nat) :
    ∀ (rem layer nid : Nat) (s : RngState) (i : Nat) (l : List Nat),
      ((buildLayers rng m num_layers rem layer nid s).2.1).get? i = some l →
      (layer + i = 0 ∨ layer + i = num_layers - 1) → l.length = 1 := by
  intro rem
  induction rem with
  | zero => intro layer nid s i l hl; simp [buildLayers] at hl
  | succ r ih =>
    intro layer nid s i l hl hedge
    simp only [buildLayers] at hl
    cases i with
    | zero =>
      have hlval := Option.some.inj hl
      subst hlval
      have hcond : layer = 0 ∨ layer = num_layers - 1 := by omega
      rw [if_pos hcond]
      simp
    | succ i2 =>
      exact ih (layer + 1) _ _ i2 l (by simpa using hl) (by omega)

theorem buildLayers_id_bounds (rng : Rng) (m : Mission) (num_layers : Nat) :
    ∀ (rem layer nid : Nat) (s : RngState),
      ∀ l ∈ (buildLayers rng m num_layers rem layer nid s).2.1, ∀ x ∈ l,
        nid ≤ x ∧ x < nid + ((buildLayers rng m num_layers rem layer nid s).1).length := by
  intro rem
  induction rem with
  | zero => intro layer nid s l hl; simp [buildLayers] at hl
  | succ r ih =>
    intro layer nid s l hl x hx
    simp only [buildLayers, List.length_append, mkNodes_length] at hl ⊢
    rcases List.mem_cons.mp hl with rfl | h2
    · obtain ⟨j, hj, rfl⟩ := List.mem_map.mp hx
      have := List.mem_range.mp hj
      omega
    · have := ih (layer + 1) _ _ l h2 x hx
      omega

/-! ### C4 lemma layer 7: bridging the two passes -/

theorem finalNodeType_ite (m : Mission) :
    finalNodeType m
      = if m.mission_type = MissionType.Suppress then NodeType.Boss else NodeType.Event := by
  cases hmt : m.mission_type <;> simp [finalNodeType, hmt]

theorem skels_map_id {a b : List MapNode} (h : skelsOf a = skelsOf b) :
    a.map (fun nd => nd.id) = b.map (fun nd => nd.id) := by
  have := congrArg (List.map (fun p : Nat × NodeType × Nat × Nat => p.1)) h
  simpa [skelsOf, List.map_map, Function.comp, skel] using this

theorem skels_map_layer {a b : List MapNode} (h : skelsOf a = skelsOf b) :
    a.map (fun nd => nd.layer) = b.map (fun nd => nd.layer) := by
  have := congrArg (List.map (fun p : Nat × NodeType × Nat × Nat => p.2.2.1)) h
  simpa [skelsOf, List.map_map, Function.comp, skel] using this

theorem filter_layer_length_eq {a b : List MapNode} (h : skelsOf a = skelsOf b) (t : Nat) :
    (a.filter (fun nd => nd.layer = t)).length
      = (b.filter (fun nd => nd.layer = t)).length := by
  have hl := skels_map_layer h
  rw [← List.countP_eq_length_filter, ← List.countP_eq_length_filter]
  have hc := congrArg (List.countP (fun x => decide (x = t))) hl
  rw [List.countP_map, List.countP_map] at hc
  simpa [Function.comp] using hc

theorem mem_of_skelsOf_eq {a b : List MapNode} (h : skelsOf a = skelsOf b) {nd : MapNode}
    (hm : nd ∈ a) :
    ∃ nd2 ∈ b, nd2.id = nd.id ∧ nd2.node_type = nd.node_type ∧
      nd2.layer = nd.layer ∧ nd2.position = nd.position := by
  have hsk : skel nd ∈ skelsOf b := by
    rw [← h]
    exact List.mem_map_of_mem skel hm
  obtain ⟨nd2, hnd2, hskel⟩ := List.mem_map.mp hsk
  have h1 := congrArg (fun p : Nat × NodeType × Nat × Nat => p.1) hskel
  have h2 := congrArg (fun p : Nat × NodeType × Nat × Nat => p.2.1) hskel
  have h3 := congrArg (fun p : Nat × NodeType × Nat × Nat => p.2.2.1) hskel
  have h4 := congrArg (fun p : Nat × NodeType × Nat × Nat => p.2.2.2) hskel
  simp only [skel] at h1 h2 h3 h4
  exact ⟨nd2, hnd2, h1, h2, h3, h4⟩

theorem get?_skel_node {a b : List MapNode} (h : skelsOf a = skelsOf b) {j : Nat}
    {nd : MapNode} (hj : a.get? j = some nd) :
    ∃ nd0, b.get? j = some nd0 ∧ nd0.id = nd.id ∧ nd0.node_type = nd.node_type ∧
      nd0.layer = nd.layer ∧ nd0.position = nd.position := by
  have hx : (a.get? j).map skel = (b.get? j).map skel := by
    have := congrArg (fun l => l.get? j) h
    simpa [skelsOf, List.get?_map] using this
  rw [hj] at hx
  cases hb : b.get? j with
  | none => rw [hb] at hx; simp at hx
  | some nd0 =>
    rw [hb] at hx
    simp only [Option.map_some'] at hx
    have hskel : skel nd0 = skel nd := (Option.some.inj hx).symm
    have h1 := congrArg (fun p : Nat × NodeType × Nat × Nat => p.1) hskel
    have h2 := congrArg (fun p : Nat × NodeType × Nat × Nat => p.2.1) hskel
    have h3 := congrArg (fun p : Nat × NodeType × Nat × Nat => p.2.2.1) hskel
    have h4 := congrArg (fun p : Nat × NodeType × Nat × Nat => p.2.2.2) hskel
    simp only [skel] at h1 h2 h3 h4
    exact ⟨nd0, rfl, h1, h2, h3, h4⟩

theorem range'_get? (s n j : Nat) (h : j < n) :
    (List.range' s n).get? j = some (s + j) := by
  induction n generalizing s j with
  | zero => omega
  | succ n ih =>
    rw [List.range'_succ]
    cases j with
    | zero => simp
    | succ j2 =>
      rw [List.get?_cons_succ, ih (s + 1) j2 (by omega)]
      congr 1
      omega

theorem nodes_get?_id {nodes : List MapNode}
    (hids : nodes.map (fun nd => nd.id) = List.range' 0 nodes.length) {j : Nat}
    {nd : MapNode} (hj : nodes.get? j = some nd) : nd.id = j := by
  have hjlt : j < nodes.length := by
    by_contra hcon
    push_neg at hcon
    rw [List.get?_eq_none.mpr hcon] at hj
    simp at hj
  have hmap := congrArg (fun l => l.get? j) hids
  simp only [List.get?_map, hj, Option.map_some'] at hmap
  rw [range'_get? 0 nodes.length j hjlt] at hmap
  have := Option.some.inj hmap
  omega

theorem nodes_get?_of_mem {nodes : List MapNode}
    (hids : nodes.map (fun nd => nd.id) = List.range' 0 nodes.length) {nd : MapNode}
    (hm : nd ∈ nodes) : nodes.get? nd.id = some nd := by
  obtain ⟨j, hj⟩ := List.get?_of_mem hm
  rw [nodes_get?_id hids hj]
  exact hj

theorem mem_filter_ids_iff {nodes0 : List MapNode} {i : Nat} {l : List Nat}
    (hl : l = ((nodes0.filter (fun nd => nd.layer = i)).map (fun nd => nd.id))) (x : Nat) :
    x ∈ l ↔ ∃ nd ∈ nodes0, nd.layer = i ∧ nd.id = x := by
  subst hl
  constructor
  · intro hx
    obtain ⟨nd, hndf, hndid⟩ := List.mem_map.mp hx
    obtain ⟨hndmem, hndlay⟩ := List.mem_filter.mp hndf
    refine ⟨nd, hndmem, ?_, hndid⟩
    simpa using hndlay
  · rintro ⟨nd, hmem, hlay, hid⟩
    exact List.mem_map.mpr ⟨nd, List.mem_filter.mpr ⟨hmem, by simp [hlay]⟩, hid⟩

/-- The layered-graph invariants hold after the second pass, given the
structure the first pass guarantees. -/
theorem connect_invariants (rng : Rng) (m : Mission) (nodes0 : List MapNode)
    (ls : List (List Nat)) (s2 : RngState)
    (hL2 : 2 ≤ m.length)
    (hlsl : ls.length = m.length)
    (hids0 : nodes0.map (fun nd => nd.id) = List.range' 0 nodes0.length)
    (hconns0 : ∀ nd ∈ nodes0, nd.connections = [])
    (hbounds : ∀ nd ∈ nodes0, nd.layer < m.length)
    (hftype : ∀ nd ∈ nodes0, nd.layer ≠ 0 → nd.layer = m.length - 1 →
      nd.node_type = finalNodeType m)
    (hlayerids : ∀ i l, ls.get? i = some l →
      l = ((nodes0.filter (fun nd => nd.layer = i)).map (fun nd => nd.id)))
    (hedge : ∀ i l, ls.get? i = some l → (i = 0 ∨ i = m.length - 1) → l.length = 1)
    (hval : ∀ l ∈ ls, ∀ x ∈ l, x < nodes0.length)
    (hne : ∀ l ∈ ls, l ≠ []) :
    branchingMapInvariants m ((connectLayers rng ls nodes0 s2).1) := by
  have hnodup : ∀ x ∈ nodes0, ∀ y ∈ nodes0, x.id = y.id → x = y := by
    have hnd : (nodes0.map (fun nd => nd.id)).Nodup := by
      rw [hids0]
      exact List.nodup_range' 0 nodes0.length
    exact fun x hx y hy hxy => List.inj_on_of_nodup_map hnd hx hy hxy
  have hdisj : LayersDisjoint ls := by
    intro i j li lj hij hi hj x hxi hxj
    obtain ⟨nd1, h1m, h1l, h1id⟩ := (mem_filter_ids_iff (hlayerids i li hi) x).mp hxi
    obtain ⟨nd2, h2m, h2l, h2id⟩ := (mem_filter_ids_iff (hlayerids j lj hj) x).mp hxj
    have heq : nd1 = nd2 := hnodup nd1 h1m nd2 h2m (by rw [h1id, h2id])
    rw [heq] at h1l
    omega
  have hskels : skelsOf ((connectLayers rng ls nodes0 s2).1) = skelsOf nodes0 :=
    connectLayers_skels rng ls nodes0 s2
  have hlenF : ((connectLayers rng ls nodes0 s2).1).length = nodes0.length :=
    connectLayers_length rng ls nodes0 s2
  have hidsF : ((connectLayers rng ls nodes0 s2).1).map (fun nd => nd.id)
      = List.range' 0 ((connectLayers rng ls nodes0 s2).1).length := by
    rw [skels_map_id hskels, hids0, hlenF]
  have hconnsAt0 : ∀ j, connsAt nodes0 j = [] := by
    intro j
    unfold connsAt
    cases hg : nodes0.get? j with
    | none => rfl
    | some nd => exact hconns0 nd (List.get?_mem hg)
  -- the last layer's id list
  have hlast_lt : m.length - 1 < ls.length := by omega
  obtain ⟨lLast, hgLast⟩ : ∃ l, ls.get? (m.length - 1) = some l := by
    cases hg : ls.get? (m.length - 1) with
    | none => rw [List.get?_eq_none] at hg; omega
    | some l => exact ⟨l, rfl⟩
  -- generic facts about a member of the final list
  have hmember : ∀ nd ∈ (connectLayers rng ls nodes0 s2).1,
      ∃ j, ((connectLayers rng ls nodes0 s2).1).get? j = some nd ∧ nd.id = j ∧
        ∃ nd0, nodes0.get? j = some nd0 ∧ nd0 ∈ nodes0 ∧ nd0.id = nd.id ∧
          nd0.node_type = nd.node_type ∧ nd0.layer = nd.layer ∧ nd0.position = nd.position := by
    intro nd hnd
    obtain ⟨j, hj⟩ := List.get?_of_mem hnd
    obtain ⟨nd0, hnd0get, hid0, htype0, hlayer0, hpos0⟩ := get?_skel_node hskels hj
    exact ⟨j, hj, nodes_get?_id hidsF hj, nd0, hnd0get, List.get?_mem hnd0get,
      hid0, htype0, hlayer0, hpos0⟩
  -- a member's id belongs to its layer's id list
  have hjin : ∀ (j : Nat) (nd0 : MapNode), nd0 ∈ nodes0 → nd0.id = j →
      ∀ (i : Nat) (li : List Nat), nd0.layer = i → ls.get? i = some li → j ∈ li := by
    intro j nd0 hmem hid i li hlay hgi
    exact (mem_filter_ids_iff (hlayerids i li hgi) j).mpr ⟨nd0, hmem, hlay, hid⟩
  refine ⟨?_, ?_, ?_, ?_, ?_⟩
  · -- layer 0 has exactly one node
    rw [filter_layer_length_eq hskels 0]
    obtain ⟨l0, hg0⟩ : ∃ l, ls.get? 0 = some l := by
      cases hg : ls.get? 0 with
      | none => rw [List.get?_eq_none] at hg; omega
      | some l => exact ⟨l, rfl⟩
    have hlen1 := hedge 0 l0 hg0 (Or.inl rfl)
    rw [hlayerids 0 l0 hg0, List.length_map] at hlen1
    exact hlen1
  · -- the final layer has exactly one node
    rw [filter_layer_length_eq hskels (m.length - 1)]
    have hlen1 := hedge (m.length - 1) lLast hgLast (Or.inr rfl)
    rw [hlayerids _ lLast hgLast, List.length_map] at hlen1
    exact hlen1
  · -- the final layer's node: mission-typed, no outgoing connections
    intro nd hnd hndl
    obtain ⟨j, hj, hidj, nd0, hnd0get, hnd0mem, hid0, htype0, hlayer0, _⟩ := hmember nd hnd
    constructor
    · rw [← htype0, hftype nd0 hnd0mem (by omega) (by omega)]
      exact finalNodeType_ite m
    · have hjlast : j ∈ lLast := hjin j nd0 hnd0mem (hid0.trans hidj) _ lLast (by omega) hgLast
      have huntouch : connsAt ((connectLayers rng ls nodes0 s2).1) j = connsAt nodes0 j := by
        apply connectLayers_untouched
        intro l hl hjl
        obtain ⟨i, hilen, hig⟩ := mem_dropLast_get? hl
        exact hdisj i (m.length - 1) l lLast (by omega) hig hgLast j hjl hjlast
      have hc : nd.connections = connsAt ((connectLayers rng ls nodes0 s2).1) j := by
        unfold connsAt
        rw [hj]
      rw [hc, huntouch, hconnsAt0]
  · -- outgoing connections go into the next layer, and exist
    intro nd hnd hndne
    obtain ⟨j, hj, hidj, nd0, hnd0get, hnd0mem, hid0, htype0, hlayer0, _⟩ := hmember nd hnd
    have hndlt : nd.layer < m.length := hlayer0 ▸ hbounds nd0 hnd0mem
    have hnext_lt : nd.layer + 1 < ls.length := by omega
    obtain ⟨li, hgi⟩ : ∃ l, ls.get? nd.layer = some l := by
      cases hg : ls.get? nd.layer with
      | none => rw [List.get?_eq_none] at hg; omega
      | some l => exact ⟨l, rfl⟩
    obtain ⟨lnext, hgnext⟩ : ∃ l, ls.get? (nd.layer + 1) = some l := by
      cases hg : ls.get? (nd.layer + 1) with
      | none => rw [List.get?_eq_none] at hg; omega
      | some l => exact ⟨l, rfl⟩
    have hjli : j ∈ li := hjin j nd0 hnd0mem (hid0.trans hidj) _ li hlayer0 hgi
    obtain ⟨extra, hx, hxne, hxsub⟩ :=
      connectLayers_outgoing rng ls nodes0 s2 hval hne hdisj nd.layer li lnext hgi hgnext j hjli
    have hc : nd.connections = connsAt ((connectLayers rng ls nodes0 s2).1) j := by
      unfold connsAt
      rw [hj]
    rw [hc, hx, hconnsAt0, List.nil_append]
    refine ⟨hxne, ?_⟩
    intro c hcx
    obtain ⟨ndc, hndcm, hndcl, hndcid⟩ :=
      (mem_filter_ids_iff (hlayerids _ lnext hgnext) c).mp (hxsub c hcx)
    obtain ⟨ndc2, hndc2mem, hndc2id, _, hndc2lay, _⟩ := mem_of_skelsOf_eq hskels.symm hndcm
    exact ⟨ndc2, hndc2mem, hndc2id.trans hndcid, by omega⟩
  · -- incoming connection from the previous layer
    intro nd hnd hnd0ne
    obtain ⟨j, hj, hidj, nd0, hnd0get, hnd0mem, hid0, htype0, hlayer0, _⟩ := hmember nd hnd
    have hndlt : nd.layer < m.length := hlayer0 ▸ hbounds nd0 hnd0mem
    have hprev_lt : nd.layer - 1 < ls.length := by omega
    obtain ⟨lprev, hgprev⟩ : ∃ l, ls.get? (nd.layer - 1) = some l := by
      cases hg : ls.get? (nd.layer - 1) with
      | none => rw [List.get?_eq_none] at hg; omega
      | some l => exact ⟨l, rfl⟩
    obtain ⟨li, hgi⟩ : ∃ l, ls.get? nd.layer = some l := by
      cases hg : ls.get? nd.layer with
      | none => rw [List.get?_eq_none] at hg; omega
      | some l => exact ⟨l, rfl⟩
    have hgi' : ls.get? (nd.layer - 1 + 1) = some li := by
      have harith : nd.layer - 1 + 1 = nd.layer := by omega
      rw [harith]
      exact hgi
    have hjli : j ∈ li := hjin j nd0 hnd0mem (hid0.trans hidj) _ li hlayer0 hgi
    obtain ⟨src, hsrcmem, hsrcconn⟩ :=
      connectLayers_incoming rng ls nodes0 s2 hval hne (nd.layer - 1) lprev li
        hgprev hgi' j hjli
    obtain ⟨ndsrc0, hndsrc0m, hndsrc0l, hndsrc0id⟩ :=
      (mem_filter_ids_iff (hlayerids _ lprev hgprev) src).mp hsrcmem
    obtain ⟨ndsrc2, hndsrc2mem, hndsrc2id, _, hndsrc2lay, _⟩ :=
      mem_of_skelsOf_eq hskels.symm hndsrc0m
    have hsrcget : ((connectLayers rng ls nodes0 s2).1).get? src = some ndsrc2 := by
      have := nodes_get?_of_mem hidsF hndsrc2mem
      rw [hndsrc2id.trans hndsrc0id] at this
      exact this
    have hconnsrc : ndsrc2.connections = connsAt ((connectLayers rng ls nodes0 s2).1) src := by
      unfold connsAt
      rw [hsrcget]
    refine ⟨ndsrc2, hndsrc2mem, ?_, ?_⟩
    · rw [hndsrc2lay, hndsrc0l]
      omega
    · rw [hidj, hconnsrc]
      exact hsrcconn

/-- C4: for every mission of length at least 2 and every outcome of the
random source, `generate_branching_map` produces a layered graph with a
single entry node in layer 0, a single terminal node in the last layer
(`Boss` for Suppress missions, `Event` otherwise) with no outgoing
connections, at least one outgoing connection into the next layer from every
non-final node, and at least one incoming connection from the previous layer
into every non-entry node. -/
theorem generate_branching_map_layered (m : Mission) (rng : Rng) (h2 : 2 ≤ m.length) :
    branchingMapInvariants m (m.generate_branching_map rng) := by
  show branchingMapInvariants m
    ((connectLayers rng (buildLayers rng m m.length m.length 0 0 ⟨0, 0⟩).2.1
        (buildLayers rng m m.length m.length 0 0 ⟨0, 0⟩).1
        (buildLayers rng m m.length m.length 0 0 ⟨0, 0⟩).2.2).1)
  apply connect_invariants rng m _ _ _ h2
  · exact buildLayers_layers_length rng m m.length m.length 0 0 _
  · exact buildLayers_ids rng m m.length m.length 0 0 _
  · exact buildLayers_conns rng m m.length m.length 0 0 _
  · intro nd hnd
    have := buildLayers_layer_bounds rng m m.length m.length 0 0 _ nd hnd
    omega
  · exact buildLayers_final_type rng m m.length m.length 0 0 _
  · intro i l hl
    have := buildLayers_layer_ids rng m m.length m.length 0 0 _ i l hl
    simpa using this
  · intro i l hl hedge
    exact buildLayers_edge_single rng m m.length m.length 0 0 _ i l hl (by omega)
  · intro l hl x hx
    have := buildLayers_id_bounds rng m m.length m.length 0 0 _ l hl x hx
    omega
  · intro l hl
    obtain ⟨i, hi⟩ := List.get?_of_mem hl
    exact buildLayers_layer_nonempty rng m m.length m.length 0 0 _ i l hi

/-- Witness for `generate_branching_map_layered`: the concrete first mission
(a Scout mission of length 5) under the all-zero random source. -/
theorem generate_branching_map_layered_witness :
    2 ≤ Mission.first_mission.length ∧
    branchingMapInvariants Mission.first_mission
      (Mission.first_mission.generate_branching_map rngZero) :=
  ⟨by decide, generate_branching_map_layered Mission.first_mission rngZero (by decide)⟩

end Frontier
